import Mathlib

/-!
# Sippy step-metrics HTML rendering

A shallow embedding of `pkg/html/generichtml/htmltable.go` and
`pkg/html/stepmetricshtml/helpers.go`, followed by theorems about the markup
serialisation, the snapshot lookups, the trend computation and the table
assembly.

Conventions of the embedding:

* a Go `string` is a Lean `String`; Go compares strings bytewise, which on
  well-formed UTF-8 is the lexicographic order of the code points, that is the
  order of `String` (`String.lt_iff_toList_lt`);
* a Go `map[string]V` is an association list with pairwise distinct keys
  (`GoMap V`); the order of its entries stands for the iteration order the Go
  runtime happens to pick;
* a `strings.Builder` is the string written so far, and every `fmt.Fprint` is an
  append to it;
* a method with a pointer receiver returns the updated receiver;
* a `float64` pass percentage is the number it denotes, or the negative zero
  (`Float64`); subtraction and comparison are those of the numbers, and are
  exact.
-/

/-! ## Go built-ins -/

/-- A Go `map[string]V`: finitely many entries with pairwise distinct keys. -/
abbrev GoMap (V : Type) := AList (fun _ : String => V)

namespace GoMap

/-- The index expression `m[k]`: the stored value, or the zero value of `V`. -/
def index {V : Type} [Inhabited V] (m : GoMap V) (k : String) : V :=
  (m.lookup k).getD default

/-- The second result of the comma-ok form `_, ok := m[k]`. -/
def commaOk {V : Type} (m : GoMap V) (k : String) : Bool :=
  (m.lookup k).isSome

/-- The assignment `m[k] = v`. -/
def set {V : Type} (m : GoMap V) (k : String) (v : V) : GoMap V :=
  m.insert k v

/-- The pairs visited by `for k, v := range m`. -/
def range {V : Type} (m : GoMap V) : List (String × V) :=
  m.entries.map (fun e => (e.1, e.2))

/-- A map literal: the listed pairs are stored one after the other. -/
def lit {V : Type} (kvs : List (String × V)) : GoMap V :=
  kvs.foldl (fun m kv => m.set kv.1 kv.2) ∅

end GoMap

/-- The order `a <= b` of Go strings, computed on the lists of code points. -/
def strLE (a b : String) : Prop := a.data ≤ b.data

instance strLE.decidable : DecidableRel strLE :=
  fun a b => inferInstanceAs (Decidable (a.data ≤ b.data))

/-! ## Package `sets` -/

namespace sets

/-- Modelled from the spec: `sets.StringKeySet` of `pkg/util/sets` is not among
the embedded sources; it collects the keys of a map into a set, here the
duplicate-free list of the keys. -/
def StringKeySet {V : Type} (m : GoMap V) : List String := m.keys

/-- Modelled from the spec: the method `List` of a string set of `pkg/util/sets`
is not among the embedded sources; the spec has its callers iterate
"lexicographically by key" ("attributes are always emitted in lexicographic key
order", "result lists are returned sorted lexicographically by Name"), so it
returns the elements of the set in ascending order. -/
def List (s : List String) : List String := s.insertionSort strLE

end sets

/-! ## Package `net/url` -/

namespace url

/-- A `*url.URL`, of which the code only reads the string form. -/
structure URL where
  /-- The value returned by the method `String()`. -/
  str : String

end url

/-! ## Package `generichtml` -/

namespace generichtml

mutual
/-- The interface `HTMLItem` with the types of this package that implement it. -/
inductive HTMLItem where
  | htmlTextElement (h : String)
  | element (e : HTMLElement)
  | headerRowItem (r : HTMLTableHeaderRowItem)
  | rowItem (r : HTMLTableRowItem)
  | row (r : HTMLTableRow)
  | table (t : HTMLTable)
/-- The struct `HTMLElement`. -/
inductive HTMLElement where
  | mk (Params : GoMap String) (Text : String) (HTMLItems : List HTMLItem) (Element : String)
/-- The struct `HTMLTableHeaderRowItem`. -/
inductive HTMLTableHeaderRowItem where
  | mk (Text : String) (HTMLItems : List HTMLItem) (Params : GoMap String)
/-- The struct `HTMLTableRowItem`. -/
inductive HTMLTableRowItem where
  | mk (Text : String) (HTMLItems : List HTMLItem) (Params : GoMap String)
/-- The struct `HTMLTableRow`. -/
inductive HTMLTableRow where
  | mk (items : List HTMLItem) (params : GoMap String)
/-- The struct `HTMLTable`. -/
inductive HTMLTable where
  | mk (headerRows : List HTMLTableRow) (rows : List HTMLTableRow) (params : GoMap String)
end

def HTMLElement.Params : HTMLElement → GoMap String
  | .mk p _ _ _ => p

def HTMLElement.Text : HTMLElement → String
  | .mk _ t _ _ => t

def HTMLElement.HTMLItems : HTMLElement → List HTMLItem
  | .mk _ _ items _ => items

def HTMLElement.Element : HTMLElement → String
  | .mk _ _ _ el => el

def HTMLTableHeaderRowItem.Text : HTMLTableHeaderRowItem → String
  | .mk t _ _ => t

def HTMLTableHeaderRowItem.HTMLItems : HTMLTableHeaderRowItem → List HTMLItem
  | .mk _ items _ => items

def HTMLTableHeaderRowItem.Params : HTMLTableHeaderRowItem → GoMap String
  | .mk _ _ p => p

def HTMLTableRowItem.Text : HTMLTableRowItem → String
  | .mk t _ _ => t

def HTMLTableRowItem.HTMLItems : HTMLTableRowItem → List HTMLItem
  | .mk _ items _ => items

def HTMLTableRowItem.Params : HTMLTableRowItem → GoMap String
  | .mk _ _ p => p

def HTMLTableRow.items : HTMLTableRow → List HTMLItem
  | .mk items _ => items

def HTMLTableRow.params : HTMLTableRow → GoMap String
  | .mk _ p => p

def HTMLTable.headerRows : HTMLTable → List HTMLTableRow
  | .mk hs _ _ => hs

def HTMLTable.rows : HTMLTable → List HTMLTableRow
  | .mk _ rs _ => rs

def HTMLTable.params : HTMLTable → GoMap String
  | .mk _ _ p => p

/-- The function `NewHTMLTextElement`. -/
def NewHTMLTextElement (text : String) : HTMLItem := HTMLItem.htmlTextElement text

/-- The function `SpaceHTMLItems`: the loop appends each item and a text node
holding one space to `out`. -/
def SpaceHTMLItems (htmlItems : List HTMLItem) : List HTMLItem :=
  htmlItems.foldl (fun out item => out ++ [item, NewHTMLTextElement " "]) []

/-- One pass of the attribute loop of `HTMLElement.ToHTML`: the two `Fprint`
calls for the key `paramKey`. -/
def writeParam (Params : GoMap String) (sb : String) (paramKey : String) : String :=
  (sb ++ (" " ++ paramKey ++ "=" ++ "\"")) ++ (Params.index paramKey ++ "\"")

/-- The body of `HTMLElement.ToHTML`, given the fields of the element with the
renderings `item.ToHTML()` of its children in place of the children. -/
def elementToHTML (Params : GoMap String) (Text : String) (children : List String)
    (Element : String) : String :=
  let sb := "" ++ ("<" ++ Element)
  let sb := (sets.List (sets.StringKeySet Params)).foldl (writeParam Params) sb
  let sb := sb ++ ">"
  let sb := if children.length ≠ 0 then children.foldl (fun sb h => sb ++ h) sb else sb ++ Text
  let sb := sb ++ ("</" ++ Element ++ ">")
  sb

/-- The loop of `HTMLTableRow.ToHTML` over the cells, on their renderings. -/
def rowText (cells : List String) : String :=
  cells.foldl (fun sb h => sb ++ ("  " ++ h ++ "\n  ")) ("" ++ "\n  ")

/-- The two loops of `HTMLTable.ToHTML` over the rows, on their renderings;
`Fprintln(sb, "")` writes a newline. -/
def tableText (headerRows rows : List String) : String :=
  let sb := "" ++ ("" ++ "\n")
  let sb := headerRows.foldl (fun sb h => sb ++ h) sb
  let sb := rows.foldl (fun sb h => sb ++ h) sb
  sb

mutual
/-- The method `ToHTML` of the interface, dispatched on the dynamic type. -/
def HTMLItem.ToHTML : HTMLItem → String
  | .htmlTextElement h => h
  | .element e => e.ToHTML
  | .headerRowItem r => r.ToHTML
  | .rowItem r => r.ToHTML
  | .row r => r.ToHTML
  | .table t => t.ToHTML
/-- The method `HTMLElement.ToHTML`. -/
def HTMLElement.ToHTML : HTMLElement → String
  | .mk Params Text HTMLItems Element =>
    elementToHTML Params Text (itemsToHTML HTMLItems) Element
/-- The method `HTMLTableHeaderRowItem.ToHTML`: an element `th` with the fields
of the receiver. -/
def HTMLTableHeaderRowItem.ToHTML : HTMLTableHeaderRowItem → String
  | .mk Text HTMLItems Params => elementToHTML Params Text (itemsToHTML HTMLItems) "th"
/-- The method `HTMLTableRowItem.ToHTML`: an element `td` with the fields of the
receiver. -/
def HTMLTableRowItem.ToHTML : HTMLTableRowItem → String
  | .mk Text HTMLItems Params => elementToHTML Params Text (itemsToHTML HTMLItems) "td"
/-- The method `HTMLTableRow.ToHTML`: an element `tr` without children whose
text is the string built from the cells. -/
def HTMLTableRow.ToHTML : HTMLTableRow → String
  | .mk items params =>
    "  " ++ elementToHTML params (rowText (itemsToHTML items)) [] "tr" ++ "\n"
/-- The method `HTMLTable.ToHTML`: an element `table` without children whose
text is the string built from the rows. -/
def HTMLTable.ToHTML : HTMLTable → String
  | .mk headerRows rows params =>
    elementToHTML params (tableText (rowsToHTML headerRows) (rowsToHTML rows)) [] "table"
/-- The renderings `item.ToHTML()` of a slice of items, in order. -/
def itemsToHTML : List HTMLItem → List String
  | [] => []
  | item :: rest => item.ToHTML :: itemsToHTML rest
/-- The renderings `row.ToHTML()` of a slice of rows, in order. -/
def rowsToHTML : List HTMLTableRow → List String
  | [] => []
  | row :: rest => row.ToHTML :: rowsToHTML rest
end

/-- The function `NewHTMLLinkWithParams`; `linkURL` is the target. -/
def NewHTMLLinkWithParams (text : String) (linkURL : url.URL) (params : GoMap String) :
    HTMLElement :=
  let tParams : GoMap String := params.range.foldl (fun m kv => m.set kv.1 kv.2) ∅
  if tParams.commaOk "href" then
    HTMLElement.mk tParams text [] "a"
  else
    HTMLElement.mk (tParams.set "href" linkURL.str) text [] "a"

/-- The function `NewHTMLLink`. -/
def NewHTMLLink (text : String) (linkURL : url.URL) : HTMLElement :=
  NewHTMLLinkWithParams text linkURL (GoMap.lit [("href", linkURL.str)])

/-- The function `NewHTMLTableRowWithItems`. -/
def NewHTMLTableRowWithItems (p : GoMap String) (items : List HTMLItem) : HTMLTableRow :=
  HTMLTableRow.mk items p

/-- The function `NewHTMLTableRow`: no items yet. -/
def NewHTMLTableRow (p : GoMap String) : HTMLTableRow :=
  HTMLTableRow.mk [] p

/-- The method `HTMLTableRow.AddItems`. -/
def HTMLTableRow.AddItems (r : HTMLTableRow) (items : List HTMLItem) : HTMLTableRow :=
  HTMLTableRow.mk (r.items ++ items) r.params

/-- The function `NewHTMLTable`: no rows yet. -/
def NewHTMLTable (p : GoMap String) : HTMLTable :=
  HTMLTable.mk [] [] p

/-- The method `HTMLTable.AddHeaderRow`. -/
def HTMLTable.AddHeaderRow (h : HTMLTable) (headerRow : HTMLTableRow) : HTMLTable :=
  HTMLTable.mk (h.headerRows ++ [headerRow]) h.rows h.params

/-- The method `HTMLTable.AddRow`. -/
def HTMLTable.AddRow (h : HTMLTable) (row : HTMLTableRow) : HTMLTable :=
  HTMLTable.mk h.headerRows (h.rows ++ [row]) h.params

/-- A call on a table under construction: `AddHeaderRow` or `AddRow`. -/
inductive TableCall where
  | addHeaderRow (headerRow : HTMLTableRow)
  | addRow (row : HTMLTableRow)

/-- The table after one call. -/
def HTMLTable.call (h : HTMLTable) : TableCall → HTMLTable
  | .addHeaderRow headerRow => h.AddHeaderRow headerRow
  | .addRow row => h.AddRow row

/-- The table after a sequence of calls, made in order. -/
def HTMLTable.calls (h : HTMLTable) (cs : List TableCall) : HTMLTable :=
  cs.foldl HTMLTable.call h

/-- The rows passed to `AddHeaderRow` in a sequence of calls, in order. -/
def TableCall.headerRowsOf : List TableCall → List HTMLTableRow
  | [] => []
  | .addHeaderRow headerRow :: cs => headerRow :: TableCall.headerRowsOf cs
  | .addRow _ :: cs => TableCall.headerRowsOf cs

/-- The rows passed to `AddRow` in a sequence of calls, in order. -/
def TableCall.rowsOf : List TableCall → List HTMLTableRow
  | [] => []
  | .addHeaderRow _ :: cs => TableCall.rowsOf cs
  | .addRow row :: cs => row :: TableCall.rowsOf cs

/-- The concatenation of a sequence of strings, in order. -/
def concat : List String → String
  | [] => ""
  | s :: rest => s ++ concat rest

/-- The attribute text of one key: a space, the key, `="`, the value and `"`. -/
def attrText (Params : GoMap String) (paramKey : String) : String :=
  " " ++ paramKey ++ "=\"" ++ Params.index paramKey ++ "\""

/-- The attribute text of a parameter map: the attribute texts of its keys in
the order of `sets.List`. -/
def attributes (Params : GoMap String) : String :=
  concat ((sets.List (sets.StringKeySet Params)).map (attrText Params))

/-- The text between the opening and the closing tag of an element: the
renderings of the children in sequence order when there are children, the text
of the element otherwise. -/
def HTMLElement.body (e : HTMLElement) : String :=
  if e.HTMLItems.length ≠ 0 then concat (e.HTMLItems.map HTMLItem.ToHTML) else e.Text

end generichtml

/-! ## Packages `unicode`, `strings` and `fmt` of the standard library -/

namespace unicode

/-- The tables of package `unicode` for the runes above `0x7F`, taken as
parameters. -/
structure Tables where
  ToTitle : Char → Char
  IsLetter : Char → Bool
  IsDigit : Char → Bool
  IsSpace : Char → Bool

/-- The function `unicode.ToTitle`: an ASCII lower-case letter is moved to upper
case, any other ASCII rune is returned as it is. -/
def ToTitle (U : Tables) (r : Char) : Char :=
  if r.toNat ≤ 0x7F then
    if 97 ≤ r.toNat ∧ r.toNat ≤ 122 then Char.ofNat (r.toNat - 32) else r
  else U.ToTitle r

end unicode

namespace strings

/-- The function `isSeparator` used by `strings.Title`: ASCII letters, digits
and the underscore are not separators, every other ASCII rune is. -/
def isSeparator (U : unicode.Tables) (r : Char) : Bool :=
  if r.toNat ≤ 0x7F then
    if 48 ≤ r.toNat ∧ r.toNat ≤ 57 then false
    else if 97 ≤ r.toNat ∧ r.toNat ≤ 122 then false
    else if 65 ≤ r.toNat ∧ r.toNat ≤ 90 then false
    else if r.toNat = 95 then false
    else true
  else if U.IsLetter r || U.IsDigit r then false
  else U.IsSpace r

/-- The mapping closure of `strings.Title` run over the runes of the input;
`prev` is the rune seen before. -/
def titleRunes (U : unicode.Tables) (prev : Char) : List Char → List Char
  | [] => []
  | r :: rest =>
    (if isSeparator U prev then unicode.ToTitle U r else r) :: titleRunes U r rest

/-- The function `strings.Title`; `prev` starts as a space. -/
def Title (U : unicode.Tables) (s : String) : String :=
  String.mk (titleRunes U (Char.ofNat 32) s.data)

/-- The function `strings.ReplaceAll` for a one-rune `old`, the only use the
code makes of it. -/
def ReplaceAll (s : String) (old : Char) (new : String) : String :=
  String.join (s.data.map (fun r => if r = old then new else String.singleton r))

end strings

/-- A finite `float64`: the negative zero, or the number it denotes, the number
`0` being the positive zero. Infinities and NaN are left out, and every rational
number is admitted. -/
inductive Float64 where
  | negZero
  | finite (value : ℚ)

/-- The number a `float64` denotes; both zeros denote `0`. -/
def Float64.toRat : Float64 → ℚ
  | Float64.negZero => 0
  | Float64.finite value => value

/-- The sign bit of a `float64`: set for the negative numbers and for the
negative zero. -/
def Float64.signBit : Float64 → Bool
  | Float64.negZero => true
  | Float64.finite value => decide (value.num < 0)

/-- A numeric literal is the `float64` denoting that number. -/
instance Float64.ofNat (n : Nat) : OfNat Float64 n := ⟨Float64.finite (OfNat.ofNat n)⟩

namespace fmt

/-- The integer nearest to the fraction `n / d`, a tie going to the even
neighbour. -/
def roundHalfEven (n d : Nat) : Nat :=
  let f := n / d
  let r := n % d
  if 2 * r < d then f
  else if d < 2 * r then f + 1
  else if f % 2 = 0 then f
  else f + 1

/-- A number below one hundred on two digits. -/
def twoDigits (n : Nat) : String :=
  if n < 10 then "0" ++ toString n else toString n

/-- The verb `%0.2f`: a minus sign when the sign bit is set, then the absolute
value rounded to hundredths, written as integer part, point and two decimals;
the negative zero is written `-0.00`. -/
def float2 (x : Float64) : String :=
  let q := x.toRat
  let n := roundHalfEven (q.num.natAbs * 100) q.den
  (if x.signBit then "-" else "") ++ toString (n / 100) ++ "." ++ twoDigits (n % 100)

/-- The verb `%d`. -/
def int (n : Int) : String := toString n

end fmt

/-! ## Package `sippyprocessingv1` -/

namespace sippyprocessingv1

/-- Modelled from the spec: the struct `TestResult` is declared outside the
embedded sources; of its fields the name and the pass percentage ("float
0-100") are read. -/
structure TestResult where
  Name : String
  PassPercentage : Float64

/-- Modelled from the spec: the aggregate "PassPercentage, Runs" stored in a
snapshot; the code reads `TestResult`, `PassPercentage` and `Runs` of it, so
`TestResult` is embedded. -/
structure StageResult extends TestResult where
  Runs : Int

/-- Modelled from the spec: the value of the by-multistage mapping, the
aggregate of the job with "the per-(job,stage) aggregate" of "every stage under
that job". -/
structure StepRegistryMetrics where
  MultistageName : String
  Aggregated : StageResult
  StageResults : GoMap StageResult

/-- Modelled from the spec: the value of the by-stage mapping, the aggregate of
the step with "the per-(job,step) aggregate" of "every job containing that
step". -/
structure ByStageName where
  Aggregated : StageResult
  ByMultistageName : GoMap StageResult

/-- Modelled from the spec: the value of the by-job mapping, an aggregate. -/
structure ByJobName where
  Aggregated : StageResult

/-- Modelled from the spec: a snapshot, "three mappings - by multistage-job
name, by job name, by stage/step name". -/
structure TopLevelStepRegistryMetrics where
  ByMultistageName : GoMap StepRegistryMetrics
  ByJobName : GoMap ByJobName
  ByStageName : GoMap ByStageName

/-- Modelled from the spec: a report, of which the code reads the release and
the snapshot. -/
structure TestReport where
  Release : String
  TopLevelStepRegistryMetrics : TopLevelStepRegistryMetrics

/-- The zero value of `TestResult`. -/
instance TestResult.zero : Inhabited TestResult := ⟨⟨"", 0⟩⟩

/-- The zero value of `StageResult`: 0% over 0 runs. -/
instance StageResult.zero : Inhabited StageResult := ⟨⟨default, 0⟩⟩

/-- The zero value of `StepRegistryMetrics`. -/
instance StepRegistryMetrics.zero : Inhabited StepRegistryMetrics := ⟨⟨"", default, ∅⟩⟩

/-- The zero value of `ByStageName`. -/
instance ByStageName.zero : Inhabited ByStageName := ⟨⟨default, ∅⟩⟩

/-- The zero value of `ByJobName`. -/
instance ByJobName.zero : Inhabited ByJobName := ⟨⟨default⟩⟩

end sippyprocessingv1

/-! ## Package `stepmetrics` -/

namespace stepmetrics

open sippyprocessingv1

/-- The wildcard sentinel of a request dimension. -/
def All : String := "all"

/-- Modelled from the spec: the query descriptor, "two independent optional
dimensions, MultistageJobName and StepName"; `helpers.go` also sets `Release`. -/
structure Request where
  Release : String
  MultistageJobName : String
  StepName : String

/-- Modelled from the spec: "Trajectory: enum Up, Down, Flat". -/
inductive TrendTrajectory where
  | Up
  | Down
  | Flat
  deriving DecidableEq

/-- Modelled from the spec: "Trend: derived - Current, Previous: aggregate;
Trajectory; Delta". -/
structure Trend where
  Current : StageResult
  Previous : StageResult
  Trajectory : TrendTrajectory
  Delta : ℚ

/-- Modelled from the spec: "StepDetail: Name, Trend - leaf". -/
structure StepDetail where
  Name : String
  Trend : Trend

/-- Modelled from the spec: "MultistageDetails: Name, Trend (aggregate for the
job), StepDetails: mapping stepName to StepDetail". -/
structure MultistageDetails where
  Name : String
  Trend : Trend
  StepDetails : GoMap StepDetail

/-- Modelled from the spec: "StepDetails: Name, Trend (aggregate for the step
across all jobs), ByMultistage: mapping jobName to StepDetail". -/
structure StepDetails where
  Name : String
  Trend : Trend
  ByMultistage : GoMap StepDetail

/-- Modelled from the spec: "Response: MultistageDetails list, StepDetails
list". -/
structure Response where
  MultistageDetails : List MultistageDetails
  StepDetails : List StepDetails

/-- Modelled from the spec: the classification of a delta, which is outside the
embedded sources: "Trajectory is Flat iff Delta == 0, Up iff Delta > 0, Down iff
Delta < 0 (exact comparison, no epsilon)". -/
def getTrajectory (delta : ℚ) : TrendTrajectory :=
  if delta = 0 then TrendTrajectory.Flat
  else if delta > 0 then TrendTrajectory.Up
  else TrendTrajectory.Down

/-- Modelled from the spec: the comparison of a current with a previous
aggregate, which is outside the embedded sources: "Delta: float =
Current.PassPercentage - Previous.PassPercentage". -/
def newTrend (current previous : StageResult) : Trend :=
  let delta := current.PassPercentage.toRat - previous.PassPercentage.toRat
  { Current := current, Previous := previous, Trajectory := getTrajectory delta, Delta := delta }

/-- Modelled from the spec: the nested details of a resolved key, "built by
comparing, for every stage under that job, the per-(job,stage) aggregate current
vs previous" (and likewise for every job containing a step); `name` gives the
name of the detail stored under a key. -/
def nestedDetails (name : String → String) (current previous : GoMap StageResult) :
    GoMap StepDetail :=
  current.range.foldl
    (fun m kv => m.set kv.1 { Name := name kv.1, Trend := newTrend (current.index kv.1) (previous.index kv.1) })
    ∅

/-- Modelled from the spec: the details of one resolved multistage key, "Trend =
comparison of current vs previous by-multistage aggregate for that key", an
absent key yielding the zero-valued aggregate. -/
def multistageDetails (current previous : TopLevelStepRegistryMetrics) (name : String) :
    MultistageDetails :=
  let curr := current.ByMultistageName.index name
  let prev := previous.ByMultistageName.index name
  { Name := name
    Trend := newTrend curr.Aggregated prev.Aggregated
    StepDetails := nestedDetails (fun stageName => stageName) curr.StageResults prev.StageResults }

/-- Modelled from the spec: the details of one resolved step key, "Trend =
comparison of current vs previous by-stage aggregate for that key"; the nested
details carry the name of the step. -/
def stepDetails (current previous : TopLevelStepRegistryMetrics) (name : String) :
    StepDetails :=
  let curr := current.ByStageName.index name
  let prev := previous.ByStageName.index name
  { Name := name
    Trend := newTrend curr.Aggregated prev.Aggregated
    ByMultistage := nestedDetails (fun _ => name) curr.ByMultistageName prev.ByMultistageName }

/-- Modelled from the spec: the resolution of one request dimension, which is
outside the embedded sources: empty gives nothing, "all" gives "one per key
present in the current snapshot" in lexicographic order, a specific key gives
exactly that key. -/
def resolve {V : Type} (current : GoMap V) (dimension : String) : List String :=
  if dimension = "" then []
  else if dimension = All then sets.List (sets.StringKeySet current)
  else [dimension]

/-- Modelled from the spec: the operation `fetch(request)` over the snapshots of
a current and a previous report, which is outside the embedded sources. -/
def Fetch (curr prev : TestReport) (req : Request) : Response :=
  let current := curr.TopLevelStepRegistryMetrics
  let previous := prev.TopLevelStepRegistryMetrics
  { MultistageDetails :=
      (resolve current.ByMultistageName req.MultistageJobName).map
        (multistageDetails current previous)
    StepDetails :=
      (resolve current.ByStageName req.StepName).map (stepDetails current previous) }

/-- The trends stored in a nested mapping. -/
def nestedTrends (m : GoMap StepDetail) : List stepmetrics.Trend :=
  m.entries.map (fun e => e.2.Trend)

/-- Every trend of a `MultistageDetails`: its own and the nested ones. -/
def MultistageDetails.trends (d : MultistageDetails) : List stepmetrics.Trend :=
  d.Trend :: nestedTrends d.StepDetails

/-- Every trend of a `StepDetails`: its own and the nested ones. -/
def StepDetails.trends (d : StepDetails) : List stepmetrics.Trend :=
  d.Trend :: nestedTrends d.ByMultistage

/-- Every trend of a response. -/
def Response.trends (r : Response) : List stepmetrics.Trend :=
  (r.MultistageDetails.map MultistageDetails.trends).flatten
    ++ (r.StepDetails.map StepDetails.trends).flatten

end stepmetrics

/-! ## Package `stepmetricshtml` -/

namespace stepmetricshtml

open sippyprocessingv1 generichtml

/-- The struct `TableRequest`. -/
structure TableRequest where
  current : TopLevelStepRegistryMetrics
  previous : TopLevelStepRegistryMetrics
  req : stepmetrics.Request

/-- The function `NewTableRequest`. -/
def NewTableRequest (curr prev : TestReport) (req : stepmetrics.Request) : TableRequest :=
  { current := curr.TopLevelStepRegistryMetrics
    previous := prev.TopLevelStepRegistryMetrics
    req := req }

/-- The function `newTableRequestWithRelease`. -/
def newTableRequestWithRelease (curr prev : TestReport) : TableRequest :=
  NewTableRequest curr prev { Release := curr.Release, MultistageJobName := "", StepName := "" }

/-- The method `TableRequest.request`. -/
def TableRequest.request (tr : TableRequest) : stepmetrics.Request := tr.req

/-- The method `TableRequest.withRequest`. -/
def TableRequest.withRequest (tr : TableRequest) (req : stepmetrics.Request) : TableRequest :=
  { current := tr.current, previous := tr.previous, req := req }

/-- The function `getSortedKeys`. -/
def getSortedKeys {V : Type} (inMap : GoMap V) : List String :=
  sets.List (sets.StringKeySet inMap)

/-- The method `TableRequest.allMultistageNames`. -/
def TableRequest.allMultistageNames (tr : TableRequest) : List String :=
  getSortedKeys tr.current.ByMultistageName

/-- The method `TableRequest.allJobNames`. -/
def TableRequest.allJobNames (tr : TableRequest) : List String :=
  getSortedKeys tr.current.ByJobName

/-- The method `TableRequest.allStageNames`. -/
def TableRequest.allStageNames (tr : TableRequest) : List String :=
  getSortedKeys tr.current.ByStageName

/-- The method `TableRequest.byMultistageName`. -/
def TableRequest.byMultistageName (tr : TableRequest) (name : String) :
    StepRegistryMetrics × StepRegistryMetrics :=
  (tr.current.ByMultistageName.index name, tr.previous.ByMultistageName.index name)

/-- The method `TableRequest.byJobName`. -/
def TableRequest.byJobName (tr : TableRequest) (name : String) :
    sippyprocessingv1.ByJobName × sippyprocessingv1.ByJobName :=
  (tr.current.ByJobName.index name, tr.previous.ByJobName.index name)

/-- The method `TableRequest.byStageName`. -/
def TableRequest.byStageName (tr : TableRequest) (name : String) :
    sippyprocessingv1.ByStageName × sippyprocessingv1.ByStageName :=
  (tr.current.ByStageName.index name, tr.previous.ByStageName.index name)

/-- A cross-reference generator (`SippyURL`, `CISearchURL`, `StepRegistryURL`,
behind the interface `URLGenerator`): these are declared outside the embedded
sources, and the code only calls `ToHTML` on them, so a generator is the markup
that call returns. -/
structure URLGenerator where
  ToHTML : String

/-- The struct `tableRow`; a nil generator is `none`. -/
structure tableRow where
  name : String
  trend : stepmetrics.Trend
  sippyURL : Option URLGenerator
  ciSearchURL : Option URLGenerator
  stepRegistryURL : Option URLGenerator

/-- The struct `tableOpts`. -/
structure tableOpts where
  pageTitle : String
  title : String
  description : String
  width : String
  headerRows : List HTMLTableRow
  rows : List tableRow

/-- The function `getEnclosedHTMLLink`. -/
def getEnclosedHTMLLink (linkURL : URLGenerator) : HTMLItem :=
  NewHTMLTextElement ("(" ++ linkURL.ToHTML ++ ")")

/-- The function `getID`. -/
def getID (U : unicode.Tables) (in_ : String) : String :=
  let tmp := strings.ReplaceAll in_ (Char.ofNat 45) " "
  let tmp := strings.Title U tmp
  let tmp := strings.ReplaceAll tmp (Char.ofNat 32) ""
  let tmp := strings.ReplaceAll tmp (Char.ofNat 46) ""
  tmp

/-- The function `getMainHeaderRow`. -/
def getMainHeaderRow (name : String) : HTMLTableRow :=
  NewHTMLTableRowWithItems ∅
    [ HTMLItem.headerRowItem (HTMLTableHeaderRowItem.mk name [] ∅),
      HTMLItem.headerRowItem (HTMLTableHeaderRowItem.mk "Trend" [] ∅),
      HTMLItem.headerRowItem (HTMLTableHeaderRowItem.mk "Current 7 Days" [] ∅),
      HTMLItem.headerRowItem (HTMLTableHeaderRowItem.mk "Previous 7 Days" [] ∅) ]

/-- The function `getStepNameHeaderRow`. -/
def getStepNameHeaderRow : HTMLTableRow := getMainHeaderRow "Step Name"

/-- The function `getMultistageHeaderRow`. -/
def getMultistageHeaderRow : HTMLTableRow := getMainHeaderRow "Multistage Job Name"

/-- The function `getArrowForTrend`; `GetArrowForTestResult` of package
`generichtml` is declared outside the embedded sources and is a parameter. -/
def getArrowForTrend (GetArrowForTestResult : TestResult → TestResult → String)
    (t : stepmetrics.Trend) : String :=
  GetArrowForTestResult t.Current.toTestResult t.Previous.toTestResult

/-- The call `fmt.Sprintf("%0.2f%% (%d runs)", passPercentage, runs)`. -/
def sprintfRuns (passPercentage : Float64) (runs : Int) : String :=
  fmt.float2 passPercentage ++ "% (" ++ fmt.int runs ++ " runs)"

/-- The items of the name cell built by `tableRow.toHTMLTableRow`. -/
def tableRow.nameItems (t : tableRow) : List HTMLItem :=
  let nameItems := [NewHTMLTextElement t.name]
  let nameItems :=
    match t.sippyURL with
    | some u => nameItems ++ [getEnclosedHTMLLink u]
    | none => nameItems
  let nameItems :=
    match t.ciSearchURL with
    | some u => nameItems ++ [getEnclosedHTMLLink u]
    | none => nameItems
  let nameItems :=
    match t.stepRegistryURL with
    | some u => nameItems ++ [getEnclosedHTMLLink u]
    | none => nameItems
  nameItems

/-- The method `tableRow.toHTMLTableRow`. -/
def tableRow.toHTMLTableRow (GetArrowForTestResult : TestResult → TestResult → String)
    (t : tableRow) : HTMLTableRow :=
  let row := NewHTMLTableRow ∅
  let nameItems := t.nameItems
  let row := row.AddItems
    [ HTMLItem.rowItem (HTMLTableRowItem.mk "" (SpaceHTMLItems nameItems) ∅),
      HTMLItem.rowItem (HTMLTableRowItem.mk (getArrowForTrend GetArrowForTestResult t.trend) [] ∅),
      HTMLItem.rowItem (HTMLTableRowItem.mk
        (sprintfRuns t.trend.Current.PassPercentage t.trend.Current.Runs) [] ∅),
      HTMLItem.rowItem (HTMLTableRowItem.mk
        (sprintfRuns t.trend.Previous.PassPercentage t.trend.Previous.Runs) [] ∅) ]
  row

/-- The synthetic first header row built by `tableOpts.toTable`. -/
def tableOpts.defaultHeaderRow (U : unicode.Tables) (t : tableOpts) : HTMLTableRow :=
  NewHTMLTableRowWithItems ∅
    [ HTMLItem.headerRowItem (HTMLTableHeaderRowItem.mk ""
        [ HTMLItem.element (HTMLElement.mk
            (GoMap.lit [("class", "text-dark"), ("id", getID U t.description),
              ("href", "#" ++ getID U t.description)])
            t.description [] "a"),
          HTMLItem.element (HTMLElement.mk
            (GoMap.lit [("class", "fa fa-info-circle"), ("title", t.title)])
            "" [] "i"),
          NewHTMLTextElement " " ]
        (GoMap.lit [("colspan", t.width), ("class", "text-center")])) ]

/-- The method `tableOpts.toTable`. -/
def tableOpts.toTable (U : unicode.Tables)
    (GetArrowForTestResult : TestResult → TestResult → String) (t : tableOpts) : HTMLTable :=
  let table := NewHTMLTable (GoMap.lit [("class", "table")])
  let defaultHeaderRow := t.defaultHeaderRow U
  let allHeaderRows := [defaultHeaderRow] ++ t.headerRows
  let table := allHeaderRows.foldl (fun table headerRow => table.AddHeaderRow headerRow) table
  let table := t.rows.foldl
    (fun table row => table.AddRow (row.toHTMLTableRow GetArrowForTestResult)) table
  table

/-- The method `tableOpts.toHTML`. -/
def tableOpts.toHTML (U : unicode.Tables)
    (GetArrowForTestResult : TestResult → TestResult → String) (t : tableOpts) : String :=
  (t.toTable U GetArrowForTestResult).ToHTML

/-- The rows of a list in ascending order of their names. -/
def sortedByName (rows : List tableRow) : List tableRow :=
  rows.insertionSort (fun a b => strLE a.name b.name)

end stepmetricshtml

/-! ## Notions used in the statements -/

/-- The list `names` holds exactly the keys of the map `m`: it is strictly
ascending in the order of `String`, a name is listed if and only if it is a key,
every key is listed once, and there are as many names as entries in the map. -/
def listsKeysOf {V : Type} (names : List String) (m : GoMap V) : Prop :=
  names.Sorted (fun a b => a < b)
    ∧ (∀ k, k ∈ names ↔ (AList.lookup k m).isSome = true)
    ∧ (∀ k, (AList.lookup k m).isSome = true → names.count k = 1)
    ∧ names.length = m.entries.length

/-- The component `got` of a keyed lookup is the value stored under `name` in
the map `m` when the key is present, and the zero value when it is absent. -/
def storedOrZero {V : Type} [Inhabited V] (got : V) (m : GoMap V) (name : String) : Prop :=
  (∀ v, AList.lookup name m = some v → got = v)
    ∧ (AList.lookup name m = none → got = default)

/-- The properties of a trend: the delta is the difference of the pass
percentages, and the trajectory is its sign. -/
def stepmetrics.Trend.wellFormed (t : stepmetrics.Trend) : Prop :=
  t.Delta = t.Current.PassPercentage.toRat - t.Previous.PassPercentage.toRat
    ∧ (t.Trajectory = stepmetrics.TrendTrajectory.Flat ↔ t.Delta = 0)
    ∧ (t.Trajectory = stepmetrics.TrendTrajectory.Up ↔ t.Delta > 0)
    ∧ (t.Trajectory = stepmetrics.TrendTrajectory.Down ↔ t.Delta < 0)

/-- A table of Unicode properties for the examples: no rune above `0x7F` is a
letter, a digit or a space, and title case leaves such a rune as it is. -/
def unicode.plain : unicode.Tables :=
  { ToTitle := fun r => r, IsLetter := fun _ => false, IsDigit := fun _ => false,
    IsSpace := fun _ => false }

/-- Scenario 1 of the spec, current window: `e2e-aws` at 90% over 10 runs. -/
def stepmetrics.scenarioCurrent : sippyprocessingv1.TestReport :=
  { Release := "4.9"
    TopLevelStepRegistryMetrics :=
      { ByMultistageName := GoMap.lit
          [("e2e-aws", { MultistageName := "e2e-aws"
                         Aggregated := { Name := "e2e-aws", PassPercentage := 90, Runs := 10 }
                         StageResults := ∅ })]
        ByJobName := ∅
        ByStageName := ∅ } }

/-- Scenario 1 of the spec, previous window: `e2e-aws` at 90% over 8 runs. -/
def stepmetrics.scenarioPrevious : sippyprocessingv1.TestReport :=
  { Release := "4.9"
    TopLevelStepRegistryMetrics :=
      { ByMultistageName := GoMap.lit
          [("e2e-aws", { MultistageName := "e2e-aws"
                         Aggregated := { Name := "e2e-aws", PassPercentage := 90, Runs := 8 }
                         StageResults := ∅ })]
        ByJobName := ∅
        ByStageName := ∅ } }

/-- Scenario 1 of the spec: the request for the multistage job `e2e-aws`. -/
def stepmetrics.scenarioRequest : stepmetrics.Request :=
  { Release := "4.9", MultistageJobName := "e2e-aws", StepName := "" }

/-- A row for the examples: the entity `name` with the trend of two zero-valued
aggregates and no cross-reference generator. -/
def stepmetricshtml.plainRow (name : String) : stepmetricshtml.tableRow :=
  { name := name, trend := stepmetrics.newTrend default default
    sippyURL := none, ciSearchURL := none, stepRegistryURL := none }

/-- Scenario 3 of the spec: a table built from the entities `b-job`, `a-job`,
given in this order. -/
def stepmetricshtml.scenarioOpts : stepmetricshtml.tableOpts :=
  { pageTitle := "Step Metrics", title := "Step Metrics", description := "Step Metrics"
    width := "4", headerRows := []
    rows := [stepmetricshtml.plainRow "b-job", stepmetricshtml.plainRow "a-job"] }

/-- An arrow function for the examples: the same glyph for every pair. -/
def stepmetricshtml.plainArrow (_ _ : sippyprocessingv1.TestResult) : String := "-"

/-- The number of positions of the text `s` at which the text `pat` starts. -/
def occurrences (pat : List Char) : List Char → Nat
  | [] => 0
  | c :: rest => (if pat.isPrefixOf (c :: rest) then 1 else 0) + occurrences pat rest

/-- The number of times the string `pat` occurs in the string `s`. -/
def countText (pat s : String) : Nat := occurrences pat.data s.data

/-- An aggregate for the examples: `e2e-aws` at `passPercentage` over `runs`. -/
def stepmetricshtml.aggregate (passPercentage : ℚ) (runs : Int) :
    sippyprocessingv1.StageResult :=
  { Name := "e2e-aws", PassPercentage := Float64.finite passPercentage, Runs := runs }

/-- The text of `m` hundredths: the integer part in decimal, a point and exactly
two decimal digits. -/
def fmt.hundredths (m : Nat) : String :=
  toString (m / 100) ++ "." ++ String.mk [Nat.digitChar (m % 100 / 10), Nat.digitChar (m % 10)]

/-- The text `s` is the percentage `passPercentage`, rounded to the nearest
hundredth and written with exactly two decimals, after a minus sign when its
sign bit is set, followed by `% (`, the run count as a plain decimal integer and
` runs)`. -/
def isStatsText (s : String) (passPercentage : Float64) (runs : Int) : Prop :=
  ∃ m : Nat, |(m : ℚ) / 100 - passPercentage.toRat| ≤ 1 / 200
    ∧ s = (if passPercentage.signBit then "-" else "") ++ fmt.hundredths m
        ++ "% (" ++ toString runs.toNat ++ " runs)"

/-- Modelled from the spec: `GetArrowForTestResult` of package `generichtml` is
declared in a file that is not among the embedded sources; the spec has the
arrow be "a three-way glyph chosen from the already-computed directional
classification", so it is the glyph of the direction in which the current result
moved against the previous one; the three glyphs are parameters. -/
def generichtml.GetArrowForTestResult (up down flat : String)
    (curr prev : sippyprocessingv1.TestResult) : String :=
  if curr.PassPercentage.toRat > prev.PassPercentage.toRat then up
  else if curr.PassPercentage.toRat < prev.PassPercentage.toRat then down
  else flat

/-- The glyph of a trajectory. -/
def stepmetricshtml.arrowOf (up down flat : String) : stepmetrics.TrendTrajectory → String
  | stepmetrics.TrendTrajectory.Up => up
  | stepmetrics.TrendTrajectory.Down => down
  | stepmetrics.TrendTrajectory.Flat => flat

/-- The properties of the Unicode tables that the anchor ids rely on, for every
rune above `0x7F`: title case applied twice is title case applied once, title
case keeps a separator a separator and a non-separator a non-separator, and
title case never yields a hyphen. -/
def unicode.Tables.lawful (U : unicode.Tables) : Prop :=
  ∀ r : Char, 0x7F < r.toNat →
    unicode.ToTitle U (U.ToTitle r) = U.ToTitle r
      ∧ strings.isSeparator U (U.ToTitle r) = strings.isSeparator U r
      ∧ U.ToTitle r ≠ Char.ofNat 45

/-! # Theorems -/

/-! ## Strings and maps -/

theorem strLE_iff_le (a b : String) : strLE a b ↔ a ≤ b :=
  String.le_iff_toList_le.symm

instance strLE.isTotal : IsTotal String strLE :=
  ⟨fun a b => by simpa only [strLE_iff_le] using le_total a b⟩

instance strLE.isTrans : IsTrans String strLE :=
  ⟨fun a b c hab hbc => by
    rw [strLE_iff_le] at *
    exact le_trans hab hbc⟩

instance strLE.isAntisymm : IsAntisymm String strLE :=
  ⟨fun a b hab hba => by
    rw [strLE_iff_le] at *
    exact le_antisymm hab hba⟩

theorem sets_List_sorted (s : List String) : (sets.List s).Sorted strLE :=
  List.sorted_insertionSort strLE s

theorem sets_List_perm (s : List String) : (sets.List s).Perm s :=
  List.perm_insertionSort strLE s

theorem sets_mem_List {s : List String} {k : String} : k ∈ sets.List s ↔ k ∈ s :=
  (sets_List_perm s).mem_iff

theorem sets_List_length (s : List String) : (sets.List s).length = s.length :=
  (sets_List_perm s).length_eq

theorem sets_List_nodup {s : List String} (h : s.Nodup) : (sets.List s).Nodup :=
  (sets_List_perm s).nodup_iff.mpr h

/-- The sorted list of a duplicate-free set is strictly ascending in the order
of `String`. -/
theorem sets_List_strictly_ascending {s : List String} (h : s.Nodup) :
    (sets.List s).Sorted (fun a b => a < b) := by
  have hs : (sets.List s).Sorted (fun a b : String => a ≤ b) :=
    (sets_List_sorted s).imp (fun {a b} hab => (strLE_iff_le a b).mp hab)
  exact hs.lt_of_le (sets_List_nodup h)

/-- The sorted list depends on the elements of the set only. -/
theorem sets_List_congr {s t : List String} (hs : s.Nodup) (ht : t.Nodup)
    (h : ∀ k, k ∈ s ↔ k ∈ t) : sets.List s = sets.List t := by
  have hp : s.Perm t := (List.perm_ext_iff_of_nodup hs ht).mpr h
  exact List.eq_of_perm_of_sorted (((sets_List_perm s).trans hp).trans (sets_List_perm t).symm)
    (sets_List_sorted s) (sets_List_sorted t)

theorem sets_mem_StringKeySet {V : Type} {m : GoMap V} {k : String} :
    k ∈ sets.StringKeySet m ↔ k ∈ m :=
  AList.mem_keys.symm

theorem sets_StringKeySet_nodup {V : Type} (m : GoMap V) : (sets.StringKeySet m).Nodup :=
  AList.keys_nodup m

namespace GoMap

theorem mem_iff_lookup_isSome {V : Type} (m : GoMap V) (k : String) :
    k ∈ m ↔ (m.lookup k).isSome = true :=
  AList.lookup_isSome.symm

/-- Maps with the same lookups have the same keys. -/
theorem mem_congr {V : Type} {m n : GoMap V} (h : ∀ k, n.lookup k = m.lookup k) (k : String) :
    k ∈ sets.StringKeySet n ↔ k ∈ sets.StringKeySet m := by
  rw [sets_mem_StringKeySet, sets_mem_StringKeySet, mem_iff_lookup_isSome,
    mem_iff_lookup_isSome, h k]

theorem index_congr {V : Type} [Inhabited V] {m n : GoMap V}
    (h : ∀ k, n.lookup k = m.lookup k) (k : String) : n.index k = m.index k := by
  unfold GoMap.index
  rw [h k]

end GoMap

/-! ## Package `generichtml` -/

namespace generichtml

theorem foldl_append_eq (f : String → String) (l : List String) (init : String) :
    l.foldl (fun sb h => sb ++ f h) init = init ++ concat (l.map f) := by
  induction l generalizing init with
  | nil => simp [concat]
  | cons x xs ih => simp [concat, ih, String.append_assoc]

theorem foldl_writeParam (Params : GoMap String) (keys : List String) (init : String) :
    keys.foldl (writeParam Params) init = init ++ concat (keys.map (attrText Params)) := by
  induction keys generalizing init with
  | nil => simp [concat]
  | cons x xs ih => simp [concat, ih, writeParam, attrText, String.append_assoc]

theorem itemsToHTML_eq_map (items : List HTMLItem) :
    itemsToHTML items = items.map HTMLItem.ToHTML := by
  induction items with
  | nil => rfl
  | cons i rest ih => simp [itemsToHTML, ih]

theorem rowsToHTML_eq_map (rows : List HTMLTableRow) :
    rowsToHTML rows = rows.map HTMLTableRow.ToHTML := by
  induction rows with
  | nil => rfl
  | cons i rest ih => simp [rowsToHTML, ih]

/-- A header cell renders as the element `th` built from its fields. -/
theorem HTMLTableHeaderRowItem_ToHTML_eq (r : HTMLTableHeaderRowItem) :
    r.ToHTML = (HTMLElement.mk r.Params r.Text r.HTMLItems "th").ToHTML := by
  cases r
  rfl

/-- A data cell renders as the element `td` built from its fields. -/
theorem HTMLTableRowItem_ToHTML_eq (r : HTMLTableRowItem) :
    r.ToHTML = (HTMLElement.mk r.Params r.Text r.HTMLItems "td").ToHTML := by
  cases r
  rfl

/-- A row renders as the element `tr` whose text is built from the cells. -/
theorem HTMLTableRow_ToHTML_eq (r : HTMLTableRow) :
    r.ToHTML
      = "  " ++ (HTMLElement.mk r.params (rowText (r.items.map HTMLItem.ToHTML)) [] "tr").ToHTML
        ++ "\n" := by
  cases r
  simp only [HTMLTableRow.ToHTML, HTMLElement.ToHTML, itemsToHTML, itemsToHTML_eq_map,
    HTMLTableRow.params, HTMLTableRow.items]

/-- A table renders as the element `table` whose text is built from the rows. -/
theorem HTMLTable_ToHTML_element (h : HTMLTable) :
    h.ToHTML
      = (HTMLElement.mk h.params
          (tableText (h.headerRows.map HTMLTableRow.ToHTML) (h.rows.map HTMLTableRow.ToHTML))
          [] "table").ToHTML := by
  cases h
  simp only [HTMLTable.ToHTML, HTMLElement.ToHTML, itemsToHTML, rowsToHTML_eq_map,
    HTMLTable.params, HTMLTable.headerRows, HTMLTable.rows]

theorem elementToHTML_eq (Params : GoMap String) (Text : String) (children : List String)
    (Element : String) :
    elementToHTML Params Text children Element =
      "<" ++ Element ++ attributes Params ++ ">"
        ++ (if children.length ≠ 0 then concat children else Text)
        ++ "</" ++ Element ++ ">" := by
  unfold elementToHTML attributes
  simp only [foldl_writeParam, String.empty_append]
  split
  · rw [foldl_append_eq (fun h => h) children]
    simp [String.append_assoc]
  · simp [String.append_assoc]

theorem HTMLElement_ToHTML_eq (e : HTMLElement) :
    e.ToHTML = "<" ++ e.Element ++ attributes e.Params ++ ">" ++ e.body
      ++ "</" ++ e.Element ++ ">" := by
  cases e with
  | mk p t items el =>
    simp only [HTMLElement.ToHTML, elementToHTML_eq, itemsToHTML_eq_map, HTMLElement.body,
      HTMLElement.Element, HTMLElement.Params, HTMLElement.HTMLItems, HTMLElement.Text,
      List.length_map]

theorem attributes_congr {p q : GoMap String} (h : ∀ k, q.lookup k = p.lookup k) :
    attributes q = attributes p := by
  unfold attributes
  rw [sets_List_congr (sets_StringKeySet_nodup q) (sets_StringKeySet_nodup p)
    (GoMap.mem_congr h)]
  apply congrArg
  apply List.map_congr_left
  intro k _
  simp only [attrText, GoMap.index_congr h k]

end generichtml

namespace generichtml

theorem HTMLElement_ToHTML_congr (e : HTMLElement) {q : GoMap String}
    (h : ∀ k, q.lookup k = e.Params.lookup k) :
    (HTMLElement.mk q e.Text e.HTMLItems e.Element).ToHTML = e.ToHTML := by
  rw [HTMLElement_ToHTML_eq, HTMLElement_ToHTML_eq e]
  simp only [HTMLElement.Params, HTMLElement.Element, HTMLElement.body, HTMLElement.HTMLItems,
    HTMLElement.Text, attributes_congr h]

/-- Claim C1: `HTMLElement.ToHTML` writes, after the tag name, one attribute text
` key="value"` for each key of `Params`, the keys running through
`sets.List (sets.StringKeySet Params)`, which holds exactly the keys of the map,
each once, in strictly ascending order of `String` (lexicographic by code
point); so two parameter maps with the same key/value content give the same
rendering, whatever the order of their entries, and the map built as
`b:2, a:1` has the attribute text ` a="1" b="2"`. -/
theorem C1_attributes_in_key_order (e : HTMLElement) :
    e.ToHTML = "<" ++ e.Element
        ++ concat ((sets.List (sets.StringKeySet e.Params)).map (attrText e.Params))
        ++ ">" ++ e.body ++ "</" ++ e.Element ++ ">"
      ∧ (sets.List (sets.StringKeySet e.Params)).Sorted (fun a b => a < b)
      ∧ (∀ k, k ∈ sets.List (sets.StringKeySet e.Params) ↔ k ∈ e.Params)
      ∧ (∀ k, k ∈ e.Params → (sets.List (sets.StringKeySet e.Params)).count k = 1)
      ∧ (∀ k v, e.Params.lookup k = some v →
          attrText e.Params k = " " ++ k ++ "=\"" ++ v ++ "\"")
      ∧ (∀ q : GoMap String, (∀ k, q.lookup k = e.Params.lookup k) →
          (HTMLElement.mk q e.Text e.HTMLItems e.Element).ToHTML = e.ToHTML)
      ∧ attributes (GoMap.lit [("b", "2"), ("a", "1")]) = " a=\"1\" b=\"2\"" := by
  refine ⟨HTMLElement_ToHTML_eq e, sets_List_strictly_ascending (sets_StringKeySet_nodup _),
    fun k => sets_mem_List.trans sets_mem_StringKeySet, ?_, ?_,
    fun q h => HTMLElement_ToHTML_congr e h, by decide⟩
  · intro k hk
    exact List.count_eq_one_of_mem (sets_List_nodup (sets_StringKeySet_nodup _))
      ((sets_mem_List.trans sets_mem_StringKeySet).mpr hk)
  · intro k v hv
    simp [attrText, GoMap.index, hv]

/-- The element `p` with the parameters stored as `b:2, a:1` renders as the one
with the parameters stored as `a:1, b:2`, the attributes in key order. -/
theorem C1_attributes_in_key_order_witness :
    (HTMLElement.mk (GoMap.lit [("a", "1"), ("b", "2")]) "x" [] "p").ToHTML
        = (HTMLElement.mk (GoMap.lit [("b", "2"), ("a", "1")]) "x" [] "p").ToHTML
      ∧ (HTMLElement.mk (GoMap.lit [("b", "2"), ("a", "1")]) "x" [] "p").ToHTML
        = "<p a=\"1\" b=\"2\">x</p>" :=
  ⟨(C1_attributes_in_key_order
      (HTMLElement.mk (GoMap.lit [("b", "2"), ("a", "1")]) "x" [] "p")).2.2.2.2.2.1
      (GoMap.lit [("a", "1"), ("b", "2")])
      (fun k => by
        by_cases ha : k = "a"
        · subst ha; decide
        · by_cases hb : k = "b"
          · subst hb; decide
          · show AList.lookup k (((∅ : GoMap String).insert "a" "1").insert "b" "2")
              = AList.lookup k (((∅ : GoMap String).insert "b" "2").insert "a" "1")
            rw [AList.lookup_insert_ne hb, AList.lookup_insert_ne ha,
              AList.lookup_insert_ne ha, AList.lookup_insert_ne hb]),
    by decide⟩

/-- Claim C2: `HTMLElement.ToHTML` is `<`, the tag name, the attributes, `>`,
the body, `</`, the tag name and `>`; with children the body is the
concatenation of their renderings in sequence order and `Text` is ignored, so
elements differing only in `Text` render identically; without children the body
is `Text` verbatim. -/
theorem C2_element_shape (Params : GoMap String) (Text : String) (HTMLItems : List HTMLItem)
    (Element : String) :
    (HTMLElement.mk Params Text HTMLItems Element).ToHTML
        = "<" ++ Element ++ attributes Params ++ ">"
          ++ (HTMLElement.mk Params Text HTMLItems Element).body ++ "</" ++ Element ++ ">"
      ∧ (∀ item rest,
          (HTMLElement.mk Params Text (item :: rest) Element).body
            = concat ((item :: rest).map HTMLItem.ToHTML))
      ∧ (∀ item rest Text2,
          (HTMLElement.mk Params Text2 (item :: rest) Element).ToHTML
            = (HTMLElement.mk Params Text (item :: rest) Element).ToHTML)
      ∧ (HTMLElement.mk Params Text [] Element).body = Text
      ∧ (HTMLElement.mk Params Text [] Element).ToHTML
        = "<" ++ Element ++ attributes Params ++ ">" ++ Text ++ "</" ++ Element ++ ">" := by
  refine ⟨HTMLElement_ToHTML_eq _, fun item rest => ?_, fun item rest Text2 => ?_, ?_, ?_⟩
  · simp [HTMLElement.body, HTMLElement.HTMLItems]
  · simp [HTMLElement_ToHTML_eq, HTMLElement.body, HTMLElement.HTMLItems, HTMLElement.Element,
      HTMLElement.Params]
  · simp [HTMLElement.body, HTMLElement.HTMLItems, HTMLElement.Text]
  · simp [HTMLElement_ToHTML_eq, HTMLElement.body, HTMLElement.HTMLItems, HTMLElement.Element,
      HTMLElement.Params, HTMLElement.Text]

end generichtml

/-! ## Copying a map entry by entry -/

theorem GoMap_lookup_foldl_insert {V : Type} (l : List (Sigma (fun _ : String => V)))
    (hl : l.NodupKeys) (init : GoMap V) (k : String) :
    AList.lookup k (l.foldl (fun (m : GoMap V) e => m.insert e.1 e.2) init)
      = (l.dlookup k).orElse (fun _ => AList.lookup k init) := by
  induction l generalizing init with
  | nil => simp
  | cons e es ih =>
    obtain ⟨hne, hes⟩ := List.nodupKeys_cons.mp hl
    rw [List.foldl_cons, ih hes]
    cases e with
    | mk a b =>
      by_cases hk : k = a
      · subst hk
        have hnone : List.dlookup k es = none := List.dlookup_eq_none.mpr hne
        simp [hnone, AList.lookup_insert, List.dlookup_cons_eq]
      · rw [AList.lookup_insert_ne hk]
        rw [List.dlookup_cons_ne es ⟨a, b⟩ hk]

/-- The loop `for k, v := range params` storing every pair into an empty map
yields a map with the lookups of `params`. -/
theorem GoMap_lookup_copy {V : Type} (params : GoMap V) (k : String) :
    AList.lookup k (params.range.foldl (fun (m : GoMap V) kv => m.set kv.1 kv.2) (∅ : GoMap V))
      = AList.lookup k params := by
  unfold GoMap.range
  rw [List.foldl_map]
  have h := GoMap_lookup_foldl_insert params.entries params.nodupKeys (∅ : GoMap V) k
  simp only [GoMap.set]
  rw [h]
  cases hd : List.dlookup k params.entries with
  | none =>
    have : AList.lookup k params = none := hd
    simp [this]
  | some v =>
    have : AList.lookup k params = some v := hd
    simp [this]

namespace generichtml

/-! ## `SpaceHTMLItems` -/

theorem foldl_space (htmlItems out : List HTMLItem) :
    htmlItems.foldl (fun out item => out ++ [item, NewHTMLTextElement " "]) out
      = out ++ (htmlItems.map (fun item => [item, NewHTMLTextElement " "])).flatten := by
  induction htmlItems generalizing out with
  | nil => simp
  | cons x xs ih => simp [ih]

theorem SpaceHTMLItems_eq (htmlItems : List HTMLItem) :
    SpaceHTMLItems htmlItems
      = (htmlItems.map (fun item => [item, NewHTMLTextElement " "])).flatten := by
  unfold SpaceHTMLItems
  rw [foldl_space]
  simp

/-- Claim C3, refuted as stated: a one-item input is not returned unchanged, a
space node follows the item, and the result has two items, not `2 * 1 - 1`. -/
theorem C3_trailing_space_counterexample :
    SpaceHTMLItems [NewHTMLTextElement "a"]
        = [NewHTMLTextElement "a", NewHTMLTextElement " "]
      ∧ SpaceHTMLItems [NewHTMLTextElement "a"] ≠ [NewHTMLTextElement "a"]
      ∧ (SpaceHTMLItems [NewHTMLTextElement "a"]).length ≠ 2 * 1 - 1 := by
  refine ⟨rfl, ?_, ?_⟩
  · intro h
    have := congrArg List.length h
    simp [SpaceHTMLItems] at this
  · simp [SpaceHTMLItems]

/-- Claim C3, amended: `SpaceHTMLItems` keeps the items in their order and puts
one single-space text node after every item, the last one included: nothing
comes before the first item, `n` items yield `2 * n` items, and a one-item input
`[x]` yields `[x, " "]`. -/
theorem C3_space_after_every_item (item : HTMLItem) (rest : List HTMLItem) :
    SpaceHTMLItems [] = []
      ∧ SpaceHTMLItems (item :: rest)
        = item :: NewHTMLTextElement " " :: SpaceHTMLItems rest
      ∧ SpaceHTMLItems [item] = [item, NewHTMLTextElement " "]
      ∧ (SpaceHTMLItems (item :: rest)).length = 2 * (item :: rest).length := by
  refine ⟨rfl, ?_, rfl, ?_⟩
  · simp [SpaceHTMLItems_eq]
  · rw [SpaceHTMLItems_eq]
    simp [List.length_flatten, Function.comp_def]
    ring

/-! ## `NewHTMLLinkWithParams` -/

theorem NewHTMLLinkWithParams_of_none (text : String) (linkURL : url.URL)
    (params : GoMap String) (h : AList.lookup "href" params = none) :
    NewHTMLLinkWithParams text linkURL params
      = HTMLElement.mk
          ((params.range.foldl (fun (m : GoMap String) kv => m.set kv.1 kv.2)
            (∅ : GoMap String)).set "href" linkURL.str) text [] "a" := by
  unfold NewHTMLLinkWithParams
  have hc := GoMap_lookup_copy params "href"
  simp [GoMap.commaOk, hc, h]

theorem NewHTMLLinkWithParams_of_some (text : String) (linkURL : url.URL)
    (params : GoMap String) (v : String) (h : AList.lookup "href" params = some v) :
    NewHTMLLinkWithParams text linkURL params
      = HTMLElement.mk
          (params.range.foldl (fun (m : GoMap String) kv => m.set kv.1 kv.2)
            (∅ : GoMap String)) text [] "a" := by
  unfold NewHTMLLinkWithParams
  have hc := GoMap_lookup_copy params "href"
  simp [GoMap.commaOk, hc, h]

/-- Claim C4: `NewHTMLLinkWithParams` returns an element `a` with the given text
and no children, whose parameters agree with `params` on every key other than
`href`; its `href` is the string form of the target when `params` has no `href`,
and the value of the caller when `params` has one, be it the empty string. -/
theorem C4_link_href_default (text : String) (linkURL : url.URL) (params : GoMap String) :
    (NewHTMLLinkWithParams text linkURL params).Element = "a"
      ∧ (NewHTMLLinkWithParams text linkURL params).Text = text
      ∧ (NewHTMLLinkWithParams text linkURL params).HTMLItems = []
      ∧ (∀ k, k ≠ "href" →
          AList.lookup k (NewHTMLLinkWithParams text linkURL params).Params
            = AList.lookup k params)
      ∧ (AList.lookup "href" params = none →
          AList.lookup "href" (NewHTMLLinkWithParams text linkURL params).Params
            = some linkURL.str)
      ∧ (∀ v, AList.lookup "href" params = some v →
          AList.lookup "href" (NewHTMLLinkWithParams text linkURL params).Params = some v) := by
  cases hh : AList.lookup "href" params with
  | none =>
    rw [NewHTMLLinkWithParams_of_none text linkURL params hh]
    refine ⟨rfl, rfl, rfl, fun k hk => ?_, fun _ => AList.lookup_insert _, ?_⟩
    · simp only [HTMLElement.Params, GoMap.set]
      rw [AList.lookup_insert_ne hk]
      exact GoMap_lookup_copy params k
    · intro v hv
      cases hv
  | some w =>
    rw [NewHTMLLinkWithParams_of_some text linkURL params w hh]
    refine ⟨rfl, rfl, rfl, fun k _ => GoMap_lookup_copy params k, ?_, ?_⟩
    · intro h
      cases h
    · intro v hv
      simp only [HTMLElement.Params]
      rw [GoMap_lookup_copy, hh]
      exact hv

/-- A link built with the parameters `class:x, href:""` keeps the class and the
empty `href` of the caller, and a link built without `href` gets the target. -/
theorem C4_link_href_default_witness :
    AList.lookup "class"
        (NewHTMLLinkWithParams "t" ⟨"http://h"⟩ (GoMap.lit [("class", "x"), ("href", "")])).Params
        = some "x"
      ∧ AList.lookup "href"
        (NewHTMLLinkWithParams "t" ⟨"http://h"⟩ (GoMap.lit [("class", "x"), ("href", "")])).Params
        = some ""
      ∧ AList.lookup "href"
        (NewHTMLLinkWithParams "t" ⟨"http://h"⟩ (GoMap.lit [("class", "x")])).Params
        = some "http://h" :=
  ⟨((C4_link_href_default "t" ⟨"http://h"⟩
        (GoMap.lit [("class", "x"), ("href", "")])).2.2.2.1 "class" (by decide)).trans
      (by decide),
    (C4_link_href_default "t" ⟨"http://h"⟩
        (GoMap.lit [("class", "x"), ("href", "")])).2.2.2.2.2 "" (by decide),
    (C4_link_href_default "t" ⟨"http://h"⟩ (GoMap.lit [("class", "x")])).2.2.2.2.1
      (by decide)⟩

/-! ## `HTMLTable` -/

theorem foldl_append_concat (l : List String) (init : String) :
    l.foldl (fun sb h => sb ++ h) init = init ++ concat l := by
  induction l generalizing init with
  | nil => simp [concat]
  | cons x xs ih => simp [concat, ih, String.append_assoc]

theorem HTMLTable_calls_fields (cs : List TableCall) (h : HTMLTable) :
    (h.calls cs).headerRows = h.headerRows ++ TableCall.headerRowsOf cs
      ∧ (h.calls cs).rows = h.rows ++ TableCall.rowsOf cs
      ∧ (h.calls cs).params = h.params := by
  induction cs generalizing h with
  | nil => simp [HTMLTable.calls, TableCall.headerRowsOf, TableCall.rowsOf]
  | cons c cs ih =>
    have hstep : h.calls (c :: cs) = (h.call c).calls cs := rfl
    rw [hstep]
    obtain ⟨h1, h2, h3⟩ := ih (h.call c)
    rw [h1, h2, h3]
    cases c with
    | addHeaderRow r =>
      simp [HTMLTable.call, HTMLTable.AddHeaderRow, HTMLTable.headerRows, HTMLTable.rows,
        HTMLTable.params, TableCall.headerRowsOf, TableCall.rowsOf]
    | addRow r =>
      simp [HTMLTable.call, HTMLTable.AddRow, HTMLTable.headerRows, HTMLTable.rows,
        HTMLTable.params, TableCall.headerRowsOf, TableCall.rowsOf]

theorem HTMLTable_ToHTML_eq (h : HTMLTable) :
    h.ToHTML = "<table" ++ attributes h.params ++ ">" ++ "\n"
      ++ concat (h.headerRows.map HTMLTableRow.ToHTML)
      ++ concat (h.rows.map HTMLTableRow.ToHTML) ++ "</table>" := by
  cases h with
  | mk hs rs p =>
    simp only [HTMLTable.ToHTML, elementToHTML_eq, tableText, rowsToHTML_eq_map,
      HTMLTable.params, HTMLTable.headerRows, HTMLTable.rows]
    rw [foldl_append_concat, foldl_append_concat]
    have h1 : ∀ x : String, "<" ++ ("table" ++ x) = "<table" ++ x := fun x => by
      rw [← String.append_assoc]; rfl
    have h2 : "</" ++ ("table" ++ ">") = "</table>" := by decide
    simp only [String.append_assoc, String.empty_append, List.length_nil, ne_eq,
      not_true_eq_false, if_false, h1, h2]

/-- Claim C5: for a table built from `NewHTMLTable(p)` by any sequence of
`AddHeaderRow` and `AddRow` calls, `ToHTML` is `<table`, the attributes of `p`,
`>`, a newline, the renderings of the header rows in the order they were added,
the renderings of the body rows in the order they were added, and `</table>`. -/
theorem C5_table_headers_then_rows (p : GoMap String) (cs : List TableCall) :
    ((NewHTMLTable p).calls cs).ToHTML
        = "<table" ++ attributes p ++ ">" ++ "\n"
          ++ concat ((TableCall.headerRowsOf cs).map HTMLTableRow.ToHTML)
          ++ concat ((TableCall.rowsOf cs).map HTMLTableRow.ToHTML) ++ "</table>"
      ∧ ((NewHTMLTable p).calls cs).headerRows = TableCall.headerRowsOf cs
      ∧ ((NewHTMLTable p).calls cs).rows = TableCall.rowsOf cs := by
  obtain ⟨h1, h2, h3⟩ := HTMLTable_calls_fields cs (NewHTMLTable p)
  have e1 : ((NewHTMLTable p).calls cs).headerRows = TableCall.headerRowsOf cs := by
    rw [h1]; simp [NewHTMLTable, HTMLTable.headerRows]
  have e2 : ((NewHTMLTable p).calls cs).rows = TableCall.rowsOf cs := by
    rw [h2]; simp [NewHTMLTable, HTMLTable.rows]
  have e3 : ((NewHTMLTable p).calls cs).params = p := by
    rw [h3]; simp [NewHTMLTable, HTMLTable.params]
  refine ⟨?_, e1, e2⟩
  rw [HTMLTable_ToHTML_eq, e1, e2, e3]

end generichtml

/-! ## Package `stepmetricshtml`: the lookups -/

namespace stepmetricshtml

open sippyprocessingv1

theorem getSortedKeys_listsKeysOf {V : Type} (m : GoMap V) :
    listsKeysOf (getSortedKeys m) m := by
  have hmem : ∀ k, k ∈ getSortedKeys m ↔ (AList.lookup k m).isSome = true := fun k =>
    (sets_mem_List.trans sets_mem_StringKeySet).trans (GoMap.mem_iff_lookup_isSome m k)
  refine ⟨sets_List_strictly_ascending (sets_StringKeySet_nodup m), hmem, fun k hk => ?_, ?_⟩
  · exact List.count_eq_one_of_mem (sets_List_nodup (sets_StringKeySet_nodup m))
      ((hmem k).mpr hk)
  · unfold getSortedKeys
    rw [sets_List_length]
    simp [sets.StringKeySet, AList.keys, List.keys]

/-- Claim C6: the names resolved for the wildcard by `allMultistageNames`,
`allStageNames` and `allJobNames` are exactly the keys of the corresponding
mapping of the current snapshot, each once, as many as there are distinct keys,
in strictly ascending lexicographic order; replacing the previous snapshot (or
the request) by any other leaves them unchanged. -/
theorem C6_all_names_are_current_keys (tr : TableRequest)
    (previous : TopLevelStepRegistryMetrics) (req : stepmetrics.Request) :
    listsKeysOf tr.allMultistageNames tr.current.ByMultistageName
      ∧ listsKeysOf tr.allStageNames tr.current.ByStageName
      ∧ listsKeysOf tr.allJobNames tr.current.ByJobName
      ∧ (TableRequest.mk tr.current previous req).allMultistageNames = tr.allMultistageNames
      ∧ (TableRequest.mk tr.current previous req).allStageNames = tr.allStageNames
      ∧ (TableRequest.mk tr.current previous req).allJobNames = tr.allJobNames :=
  ⟨getSortedKeys_listsKeysOf _, getSortedKeys_listsKeysOf _, getSortedKeys_listsKeysOf _,
    rfl, rfl, rfl⟩

theorem index_storedOrZero {V : Type} [Inhabited V] (m : GoMap V) (name : String) :
    storedOrZero (m.index name) m name := by
  unfold storedOrZero GoMap.index
  constructor
  · intro v hv
    rw [hv]
    rfl
  · intro hn
    rw [hn]
    rfl

/-- Claim C7: the keyed lookups `byMultistageName`, `byStageName` and
`byJobName` always return a pair (current, previous) whose components are the
values stored under the name in the respective snapshot when the key is present
and the zero value when it is absent; the zero values hold the aggregate 0% over
0 runs, so a name absent from both snapshots yields 0 runs twice. -/
theorem C7_lookups_total (tr : TableRequest) (name : String) :
    storedOrZero (tr.byMultistageName name).1 tr.current.ByMultistageName name
      ∧ storedOrZero (tr.byMultistageName name).2 tr.previous.ByMultistageName name
      ∧ storedOrZero (tr.byStageName name).1 tr.current.ByStageName name
      ∧ storedOrZero (tr.byStageName name).2 tr.previous.ByStageName name
      ∧ storedOrZero (tr.byJobName name).1 tr.current.ByJobName name
      ∧ storedOrZero (tr.byJobName name).2 tr.previous.ByJobName name
      ∧ (default : StepRegistryMetrics).Aggregated.PassPercentage = 0
      ∧ (default : StepRegistryMetrics).Aggregated.Runs = 0
      ∧ (default : sippyprocessingv1.ByStageName).Aggregated.PassPercentage = 0
      ∧ (default : sippyprocessingv1.ByStageName).Aggregated.Runs = 0
      ∧ (default : sippyprocessingv1.ByJobName).Aggregated.PassPercentage = 0
      ∧ (default : sippyprocessingv1.ByJobName).Aggregated.Runs = 0 :=
  ⟨index_storedOrZero _ _, index_storedOrZero _ _, index_storedOrZero _ _,
    index_storedOrZero _ _, index_storedOrZero _ _, index_storedOrZero _ _,
    rfl, rfl, rfl, rfl, rfl, rfl⟩

/-- A request over two empty snapshots: the name `nonexistent-job` is absent
from both, and both components of the lookup hold 0 runs. -/
theorem C7_lookups_total_witness :
    ((TableRequest.mk ⟨∅, ∅, ∅⟩ ⟨∅, ∅, ∅⟩ ⟨"", "nonexistent-job", ""⟩).byMultistageName
        "nonexistent-job").1.Aggregated.Runs = 0
      ∧ ((TableRequest.mk ⟨∅, ∅, ∅⟩ ⟨∅, ∅, ∅⟩ ⟨"", "nonexistent-job", ""⟩).byMultistageName
        "nonexistent-job").2.Aggregated.Runs = 0 :=
  ⟨by
    rw [(C7_lookups_total (TableRequest.mk ⟨∅, ∅, ∅⟩ ⟨∅, ∅, ∅⟩ ⟨"", "nonexistent-job", ""⟩)
      "nonexistent-job").1.2 rfl]
    rfl,
  by
    rw [(C7_lookups_total (TableRequest.mk ⟨∅, ∅, ∅⟩ ⟨∅, ∅, ∅⟩ ⟨"", "nonexistent-job", ""⟩)
      "nonexistent-job").2.1.2 rfl]
    rfl⟩

end stepmetricshtml

/-! ## Package `stepmetrics`: trends -/

namespace stepmetrics

open sippyprocessingv1

theorem getTrajectory_iff (d : ℚ) :
    (getTrajectory d = TrendTrajectory.Flat ↔ d = 0)
      ∧ (getTrajectory d = TrendTrajectory.Up ↔ d > 0)
      ∧ (getTrajectory d = TrendTrajectory.Down ↔ d < 0) := by
  unfold getTrajectory
  rcases lt_trichotomy d 0 with h | h | h
  · have h0 : d ≠ 0 := ne_of_lt h
    have h1 : ¬ d > 0 := not_lt.mpr (le_of_lt h)
    simp [h0, h1, h]
  · subst h
    simp
  · have h0 : d ≠ 0 := ne_of_gt h
    have h1 : ¬ d < 0 := not_lt.mpr (le_of_lt h)
    simp [h0, h1, h]

theorem newTrend_wellFormed (current previous : StageResult) :
    (newTrend current previous).wellFormed :=
  ⟨rfl, getTrajectory_iff _⟩

theorem newTrend_self (a : StageResult) :
    (newTrend a a).Delta = 0 ∧ (newTrend a a).Trajectory = TrendTrajectory.Flat
      ∧ (newTrend a a).Current.Name = (newTrend a a).Previous.Name := by
  simp [newTrend, getTrajectory]

/-- Every value stored by a loop of assignments `m[k] = g k` was in the map
before or is some `g k`. -/
theorem entries_foldl_set {V W : Type} (g : String → V) (l : List (String × W))
    (init : GoMap V) (e : Sigma (fun _ : String => V))
    (he : e ∈ (l.foldl (fun (m : GoMap V) kv => m.set kv.1 (g kv.1)) init).entries) :
    e ∈ init.entries ∨ ∃ k, e.2 = g k := by
  induction l generalizing init with
  | nil => exact Or.inl he
  | cons kv rest ih =>
    rw [List.foldl_cons] at he
    rcases ih _ he with h | h
    · simp only [GoMap.set, AList.insert_entries, List.mem_cons] at h
      rcases h with h | h
      · exact Or.inr ⟨kv.1, by rw [h]⟩
      · exact Or.inl ((List.kerase_sublist _ _).subset h)
    · exact Or.inr h

/-- Every nested trend compares the values stored under one key in the two
mappings. -/
theorem nestedTrends_nestedDetails (name : String → String)
    (current previous : GoMap StageResult) (t : Trend)
    (ht : t ∈ nestedTrends (nestedDetails name current previous)) :
    ∃ k, t = newTrend (current.index k) (previous.index k) := by
  unfold nestedTrends at ht
  obtain ⟨e, he, rfl⟩ := List.mem_map.mp ht
  unfold nestedDetails at he
  rcases entries_foldl_set
    (fun k => ({ Name := name k, Trend := newTrend (current.index k) (previous.index k) } :
      StepDetail)) current.range ∅ e he with h | ⟨k, hk⟩
  · simp at h
  · exact ⟨k, by rw [hk]⟩

/-- Every trend of a response is the comparison of two aggregates, and of two
equal aggregates when the two snapshots are equal. -/
theorem trends_Fetch (curr prev : TestReport) (req : Request) (t : Trend)
    (ht : t ∈ (Fetch curr prev req).trends) :
    ∃ a b, t = newTrend a b
      ∧ (curr.TopLevelStepRegistryMetrics = prev.TopLevelStepRegistryMetrics → a = b) := by
  unfold Response.trends Fetch at ht
  simp only [List.mem_append, List.mem_flatten, List.mem_map, exists_exists_and_eq_and] at ht
  rcases ht with ⟨name, _, hmem⟩ | ⟨name, _, hmem⟩
  · unfold MultistageDetails.trends multistageDetails at hmem
    rcases List.mem_cons.mp hmem with h | h
    · exact ⟨_, _, h, fun hs => by rw [hs]⟩
    · obtain ⟨k, hk⟩ := nestedTrends_nestedDetails _ _ _ t h
      exact ⟨_, _, hk, fun hs => by rw [hs]⟩
  · unfold StepDetails.trends stepDetails at hmem
    rcases List.mem_cons.mp hmem with h | h
    · exact ⟨_, _, h, fun hs => by rw [hs]⟩
    · obtain ⟨k, hk⟩ := nestedTrends_nestedDetails _ _ _ t h
      exact ⟨_, _, hk, fun hs => by rw [hs]⟩

/-- Claim C8: for every trend of a response of `Fetch`, top-level or nested,
`Delta` is `Current.PassPercentage - Previous.PassPercentage`, and `Trajectory`
is `Flat` if and only if `Delta = 0`, `Up` if and only if `Delta > 0`, `Down` if
and only if `Delta < 0`. -/
theorem C8_trend_delta_and_trajectory (curr prev : TestReport) (req : Request) (t : Trend)
    (ht : t ∈ (Fetch curr prev req).trends) : t.wellFormed := by
  obtain ⟨a, b, rfl, _⟩ := trends_Fetch curr prev req t ht
  exact newTrend_wellFormed a b

/-- Claim C9: for every snapshot `S` and every request, all trends of the
response of `Fetch` over the pair (`S`, `S`), top-level or nested, have
`Delta = 0`, `Trajectory = Flat` and equal names in `Current` and `Previous`. -/
theorem C9_same_snapshot_flat (S : TestReport) (req : Request) (t : Trend)
    (ht : t ∈ (Fetch S S req).trends) :
    t.Delta = 0 ∧ t.Trajectory = TrendTrajectory.Flat
      ∧ t.Current.Name = t.Previous.Name := by
  obtain ⟨a, b, rfl, hab⟩ := trends_Fetch S S req t ht
  rw [← hab rfl]
  exact newTrend_self a

end stepmetrics

namespace stepmetrics

open sippyprocessingv1

theorem scenario_trend_mem (curr prev : TestReport) :
    (multistageDetails curr.TopLevelStepRegistryMetrics prev.TopLevelStepRegistryMetrics
        "e2e-aws").Trend ∈ (Fetch curr prev scenarioRequest).trends := by
  have hr : ∀ m : GoMap StepRegistryMetrics, resolve m scenarioRequest.MultistageJobName
      = ["e2e-aws"] := fun m => by
    unfold resolve
    rw [if_neg (by decide), if_neg (by decide)]
    rfl
  unfold Response.trends Fetch
  simp only [hr, List.map_cons, List.map_nil, List.flatten_cons, List.mem_append]
  exact Or.inl (Or.inl (List.mem_cons_self _ _))

/-- Scenario 1 of the spec: 90% over 10 runs against 90% over 8 runs gives a
trend with delta 0 and a flat trajectory. -/
theorem C8_trend_delta_and_trajectory_witness :
    (multistageDetails scenarioCurrent.TopLevelStepRegistryMetrics
        scenarioPrevious.TopLevelStepRegistryMetrics "e2e-aws").Trend.wellFormed
      ∧ (multistageDetails scenarioCurrent.TopLevelStepRegistryMetrics
        scenarioPrevious.TopLevelStepRegistryMetrics "e2e-aws").Trend.Current.Runs = 10
      ∧ (multistageDetails scenarioCurrent.TopLevelStepRegistryMetrics
        scenarioPrevious.TopLevelStepRegistryMetrics "e2e-aws").Trend.Previous.Runs = 8
      ∧ (multistageDetails scenarioCurrent.TopLevelStepRegistryMetrics
        scenarioPrevious.TopLevelStepRegistryMetrics "e2e-aws").Trend.Delta = 0
      ∧ (multistageDetails scenarioCurrent.TopLevelStepRegistryMetrics
        scenarioPrevious.TopLevelStepRegistryMetrics "e2e-aws").Trend.Trajectory
          = TrendTrajectory.Flat := by
  have hw := C8_trend_delta_and_trajectory scenarioCurrent scenarioPrevious scenarioRequest _
    (scenario_trend_mem scenarioCurrent scenarioPrevious)
  have hd : (multistageDetails scenarioCurrent.TopLevelStepRegistryMetrics
      scenarioPrevious.TopLevelStepRegistryMetrics "e2e-aws").Trend.Delta = 0 := by
    rw [hw.1]
    show (90 : ℚ) - 90 = 0
    norm_num
  exact ⟨hw, rfl, rfl, hd, hw.2.1.mpr hd⟩

/-- The snapshot of scenario 1 compared with itself gives a flat trend for
`e2e-aws`. -/
theorem C9_same_snapshot_flat_witness :
    (multistageDetails scenarioCurrent.TopLevelStepRegistryMetrics
        scenarioCurrent.TopLevelStepRegistryMetrics "e2e-aws").Trend.Delta = 0
      ∧ (multistageDetails scenarioCurrent.TopLevelStepRegistryMetrics
        scenarioCurrent.TopLevelStepRegistryMetrics "e2e-aws").Trend.Trajectory
          = TrendTrajectory.Flat
      ∧ (multistageDetails scenarioCurrent.TopLevelStepRegistryMetrics
        scenarioCurrent.TopLevelStepRegistryMetrics "e2e-aws").Trend.Current.Name
          = (multistageDetails scenarioCurrent.TopLevelStepRegistryMetrics
        scenarioCurrent.TopLevelStepRegistryMetrics "e2e-aws").Trend.Previous.Name :=
  C9_same_snapshot_flat scenarioCurrent scenarioRequest _
    (scenario_trend_mem scenarioCurrent scenarioCurrent)

end stepmetrics

/-! ## Package `stepmetricshtml`: table assembly -/

namespace stepmetricshtml

open sippyprocessingv1 generichtml

theorem foldl_AddHeaderRow (hs : List HTMLTableRow) (table : HTMLTable) :
    hs.foldl (fun table headerRow => table.AddHeaderRow headerRow) table
      = HTMLTable.mk (table.headerRows ++ hs) table.rows table.params := by
  induction hs generalizing table with
  | nil => cases table; simp [HTMLTable.headerRows, HTMLTable.rows, HTMLTable.params]
  | cons h rest ih =>
    rw [List.foldl_cons, ih]
    simp [HTMLTable.AddHeaderRow, HTMLTable.headerRows, HTMLTable.rows, HTMLTable.params]

theorem foldl_AddRow (f : tableRow → HTMLTableRow) (rs : List tableRow) (table : HTMLTable) :
    rs.foldl (fun table row => table.AddRow (f row)) table
      = HTMLTable.mk table.headerRows (table.rows ++ rs.map f) table.params := by
  induction rs generalizing table with
  | nil => cases table; simp [HTMLTable.headerRows, HTMLTable.rows, HTMLTable.params]
  | cons r rest ih =>
    rw [List.foldl_cons, ih]
    simp [HTMLTable.AddRow, HTMLTable.headerRows, HTMLTable.rows, HTMLTable.params]

theorem toTable_eq (U : unicode.Tables)
    (GetArrowForTestResult : TestResult → TestResult → String) (t : tableOpts) :
    t.toTable U GetArrowForTestResult
      = HTMLTable.mk (t.defaultHeaderRow U :: t.headerRows)
          (t.rows.map (fun row => row.toHTMLTableRow GetArrowForTestResult))
          (GoMap.lit [("class", "table")]) := by
  unfold tableOpts.toTable
  simp only [foldl_AddHeaderRow, foldl_AddRow]
  simp [NewHTMLTable, HTMLTable.headerRows, HTMLTable.rows, HTMLTable.params]

theorem name_of_toHTMLTableRow_eq (g : TestResult → TestResult → String) (a b : tableRow)
    (h : a.toHTMLTableRow g = b.toHTMLTableRow g) : a.name = b.name := by
  have hi := congrArg HTMLTableRow.items h
  simp only [tableRow.toHTMLTableRow, HTMLTableRow.AddItems, NewHTMLTableRow,
    HTMLTableRow.items, HTMLTableRow.params, List.nil_append] at hi
  have h0 := (List.cons.inj hi).1
  injection h0 with h1
  injection h1 with _ h2 _
  have h3 := congrArg List.head? h2
  cases a with
  | mk an at_ a1 a2 a3 =>
    cases b with
    | mk bn bt b1 b2 b3 =>
      cases a1 <;> cases a2 <;> cases a3 <;> cases b1 <;> cases b2 <;> cases b3 <;>
        simp [SpaceHTMLItems, tableRow.nameItems, NewHTMLTextElement] at h3 <;>
        simpa using h3

/-- Claim C10, refuted as stated: the table built from the rows named `b-job`,
`a-job`, in this order, has the row of `b-job` before the row of `a-job`, which
is not the ascending order of the names. -/
theorem C10_rows_not_sorted_counterexample :
    (scenarioOpts.toTable unicode.plain plainArrow).rows
        = [(plainRow "b-job").toHTMLTableRow plainArrow,
            (plainRow "a-job").toHTMLTableRow plainArrow]
      ∧ (sortedByName scenarioOpts.rows).map (fun row => row.name) = ["a-job", "b-job"]
      ∧ (scenarioOpts.toTable unicode.plain plainArrow).rows
        ≠ (sortedByName scenarioOpts.rows).map (fun row => row.toHTMLTableRow plainArrow)
      ∧ concat ((scenarioOpts.toTable unicode.plain plainArrow).rows.map HTMLTableRow.ToHTML)
        = "  <tr>\n    <td>b-job </td>\n    <td>-</td>\n    <td>0.00% (0 runs)</td>\n"
          ++ "    <td>0.00% (0 runs)</td>\n  </tr>\n"
          ++ "  <tr>\n    <td>a-job </td>\n    <td>-</td>\n    <td>0.00% (0 runs)</td>\n"
          ++ "    <td>0.00% (0 runs)</td>\n  </tr>\n" := by
  have hs : sortedByName scenarioOpts.rows = [plainRow "a-job", plainRow "b-job"] := by
    unfold sortedByName scenarioOpts
    simp only [List.insertionSort, List.orderedInsert]
    rw [if_neg (by decide)]
  refine ⟨?_, ?_, ?_, by decide!⟩
  · rw [toTable_eq]
    rfl
  · rw [hs]
    rfl
  · rw [toTable_eq, hs]
    intro h
    have h0 := (List.cons.inj h).1
    have hn := name_of_toHTMLTableRow_eq plainArrow _ _ h0
    exact absurd hn (by decide)

/-- Claim C10, amended: the body rows of the built table are the rows of the
entities in the order of the input list, one row per entity; so they are in
ascending lexicographic order of entity name when the input list is. -/
theorem C10_rows_in_input_order (U : unicode.Tables)
    (GetArrowForTestResult : TestResult → TestResult → String) (t : tableOpts) :
    (t.toTable U GetArrowForTestResult).rows
        = t.rows.map (fun row => row.toHTMLTableRow GetArrowForTestResult)
      ∧ (t.rows.Sorted (fun a b => strLE a.name b.name) →
          (t.toTable U GetArrowForTestResult).rows
            = (sortedByName t.rows).map
                (fun row => row.toHTMLTableRow GetArrowForTestResult)) := by
  have h : (t.toTable U GetArrowForTestResult).rows
      = t.rows.map (fun row => row.toHTMLTableRow GetArrowForTestResult) := by
    rw [toTable_eq]
    rfl
  refine ⟨h, fun hs => ?_⟩
  rw [h]
  unfold sortedByName
  rw [List.Sorted.insertionSort_eq hs]

/-- The rows `a-job`, `b-job` given in ascending order of name stay in this
order. -/
theorem C10_rows_in_input_order_witness :
    List.Sorted (fun a b : tableRow => strLE a.name b.name)
        [plainRow "a-job", plainRow "b-job"]
      ∧ (tableOpts.toTable unicode.plain plainArrow
          ⟨"p", "t", "d", "4", [], [plainRow "a-job", plainRow "b-job"]⟩).rows
        = (sortedByName [plainRow "a-job", plainRow "b-job"]).map
            (fun row => row.toHTMLTableRow plainArrow) :=
  have hs : List.Sorted (fun a b : tableRow => strLE a.name b.name)
      [plainRow "a-job", plainRow "b-job"] := by
    simp only [List.Sorted, List.pairwise_cons, List.mem_singleton, forall_eq,
      List.not_mem_nil, false_implies, implies_true, List.Pairwise.nil, and_true]
    decide
  ⟨hs, (C10_rows_in_input_order unicode.plain plainArrow
    ⟨"p", "t", "d", "4", [], [plainRow "a-job", plainRow "b-job"]⟩).2 hs⟩

end stepmetricshtml

/-! ## Text nodes, rows and spaced items -/

namespace generichtml

theorem attributes_empty : attributes (∅ : GoMap String) = "" := by decide

theorem SpaceHTMLItems_cons (item : HTMLItem) (rest : List HTMLItem) :
    SpaceHTMLItems (item :: rest) = item :: NewHTMLTextElement " " :: SpaceHTMLItems rest := by
  simp [SpaceHTMLItems_eq]

theorem concat_append (a b : List String) : concat (a ++ b) = concat a ++ concat b := by
  induction a with
  | nil => simp [concat]
  | cons x xs ih => simp [concat, ih, String.append_assoc]

/-- The renderings of spaced items, concatenated: each item followed by one
space. -/
theorem concat_SpaceHTMLItems (items : List HTMLItem) :
    concat ((SpaceHTMLItems items).map HTMLItem.ToHTML)
      = concat (items.map (fun item => item.ToHTML ++ " ")) := by
  induction items with
  | nil => rfl
  | cons x xs ih =>
    rw [SpaceHTMLItems_cons]
    simp only [List.map_cons, concat, ih, NewHTMLTextElement, HTMLItem.ToHTML,
      String.append_assoc]

/-- Claim C15: the text node `NewHTMLTextElement(s)` renders exactly `s`, also
when `s` holds `<`, `>`, `&` or a double quote: nothing is escaped. -/
theorem C15_text_verbatim (s : String) :
    (NewHTMLTextElement s).ToHTML = s
      ∧ (NewHTMLTextElement "<b>a & \"b\"</b>").ToHTML = "<b>a & \"b\"</b>" :=
  ⟨rfl, rfl⟩

/-- Claim C18: a row with parameters `p` and cells `c1..cn` renders as two
spaces, `<tr`, the attributes of `p`, `>`, a newline, two spaces, then for each
cell in order two spaces, the rendering of the cell, a newline and two spaces,
then `</tr>` and a newline; a row without cells renders an empty `tr`. -/
theorem C18_row_shape (p : GoMap String) (cells : List HTMLItem) :
    (HTMLTableRow.mk cells p).ToHTML
        = "  " ++ "<tr" ++ attributes p ++ ">" ++ "\n" ++ "  "
          ++ concat (cells.map (fun cell => "  " ++ cell.ToHTML ++ "\n" ++ "  "))
          ++ "</tr>" ++ "\n"
      ∧ (HTMLTableRow.mk [] p).ToHTML
        = "  " ++ "<tr" ++ attributes p ++ ">" ++ "\n" ++ "  " ++ "</tr>" ++ "\n"
      ∧ (NewHTMLTableRow ∅).ToHTML = "  <tr>\n  </tr>\n"
      ∧ NewHTMLTableRowWithItems p cells = HTMLTableRow.mk cells p := by
  have h1 : ∀ x : String, "<" ++ ("tr" ++ x) = "<tr" ++ x := fun x => by
    rw [← String.append_assoc]; rfl
  have h2 : "</" ++ ("tr" ++ ">") = "</tr>" := by decide
  have h3 : "\n  " = "\n" ++ "  " := by decide
  have hmain : ∀ cs : List HTMLItem, (HTMLTableRow.mk cs p).ToHTML
      = "  " ++ "<tr" ++ attributes p ++ ">" ++ "\n" ++ "  "
        ++ concat (cs.map (fun cell => "  " ++ cell.ToHTML ++ "\n" ++ "  "))
        ++ "</tr>" ++ "\n" := by
    intro cs
    simp only [HTMLTableRow.ToHTML, elementToHTML_eq, rowText, itemsToHTML_eq_map]
    rw [foldl_append_eq (fun h => "  " ++ h ++ "\n  ")]
    simp only [String.append_assoc, String.empty_append, List.length_nil, ne_eq,
      not_true_eq_false, if_false, h1, h2, h3, List.map_map, Function.comp_def]
  refine ⟨hmain cells, ?_, by decide, rfl⟩
  rw [hmain []]
  simp [concat]

/-- Claim C20: for `n` items `SpaceHTMLItems` returns `2 * n` items, the `i`-th
input item at position `2 * i` and a single-space text node at position
`2 * i + 1`; so the concatenated rendering of the result is the rendering of
each item followed by one space, the last one included, and the empty input
yields the empty list. -/
theorem C20_spaced_items_positions (htmlItems : List HTMLItem) :
    (SpaceHTMLItems htmlItems).length = 2 * htmlItems.length
      ∧ (∀ i, i < htmlItems.length →
          (SpaceHTMLItems htmlItems)[2 * i]? = htmlItems[i]?
            ∧ (SpaceHTMLItems htmlItems)[2 * i + 1]? = some (NewHTMLTextElement " "))
      ∧ concat ((SpaceHTMLItems htmlItems).map HTMLItem.ToHTML)
        = concat (htmlItems.map (fun item => item.ToHTML ++ " "))
      ∧ SpaceHTMLItems [] = [] := by
  refine ⟨?_, ?_, concat_SpaceHTMLItems htmlItems, rfl⟩
  · induction htmlItems with
    | nil => rfl
    | cons x xs ih =>
      rw [SpaceHTMLItems_cons]
      simp only [List.length_cons, ih]
      ring
  · induction htmlItems with
    | nil => intro i hi; simp at hi
    | cons x xs ih =>
      intro i hi
      rw [SpaceHTMLItems_cons]
      cases i with
      | zero => simp
      | succ j =>
        have hj : j < xs.length := by simpa using hi
        obtain ⟨h1, h2⟩ := ih j hj
        have e1 : 2 * (j + 1) = (2 * j) + 1 + 1 := by ring
        rw [e1]
        simp only [List.getElem?_cons_succ]
        exact ⟨h1, h2⟩

/-- The spaced list of the two items `a`, `b` has four items, `b` at position
`2` and a single-space text node at position `3`. -/
theorem C20_spaced_items_positions_witness :
    (SpaceHTMLItems [NewHTMLTextElement "a", NewHTMLTextElement "b"])[2 * 1]?
        = [NewHTMLTextElement "a", NewHTMLTextElement "b"][1]?
      ∧ (SpaceHTMLItems [NewHTMLTextElement "a", NewHTMLTextElement "b"])[2 * 1 + 1]?
        = some (NewHTMLTextElement " ") :=
  (C20_spaced_items_positions [NewHTMLTextElement "a", NewHTMLTextElement "b"]).2.1 1
    (by decide)

end generichtml

/-! ## Package `stepmetricshtml`: header rows and the rows of a table -/

namespace stepmetricshtml

open sippyprocessingv1 generichtml

/-- A cell without children and without parameters renders as its text between
the opening and the closing tag. -/
theorem elementToHTML_text (Text Element : String) :
    elementToHTML ∅ Text [] Element = "<" ++ Element ++ ">" ++ Text ++ "</" ++ Element ++ ">" := by
  rw [elementToHTML_eq, attributes_empty]
  simp [String.append_assoc]

/-- Claim C19: `getMainHeaderRow(name)` is a row without parameters of exactly
four header cells whose texts are `name`, `Trend`, `Current 7 Days` and
`Previous 7 Days`, in this order, each rendered as a `th` element;
`getStepNameHeaderRow` and `getMultistageHeaderRow` are this row for the names
`Step Name` and `Multistage Job Name` and agree on everything but the first
cell. -/
theorem C19_main_header_row (name : String) :
    (getMainHeaderRow name).items
        = [ HTMLItem.headerRowItem (HTMLTableHeaderRowItem.mk name [] ∅),
            HTMLItem.headerRowItem (HTMLTableHeaderRowItem.mk "Trend" [] ∅),
            HTMLItem.headerRowItem (HTMLTableHeaderRowItem.mk "Current 7 Days" [] ∅),
            HTMLItem.headerRowItem (HTMLTableHeaderRowItem.mk "Previous 7 Days" [] ∅) ]
      ∧ (getMainHeaderRow name).items.length = 4
      ∧ (getMainHeaderRow name).params = ∅
      ∧ (getMainHeaderRow name).items.map HTMLItem.ToHTML
        = [ "<th>" ++ name ++ "</th>", "<th>Trend</th>", "<th>Current 7 Days</th>",
            "<th>Previous 7 Days</th>" ]
      ∧ getStepNameHeaderRow = getMainHeaderRow "Step Name"
      ∧ getMultistageHeaderRow = getMainHeaderRow "Multistage Job Name"
      ∧ getStepNameHeaderRow.items.tail = getMultistageHeaderRow.items.tail
      ∧ getStepNameHeaderRow.params = getMultistageHeaderRow.params
      ∧ getStepNameHeaderRow.items.head? = some (HTMLItem.headerRowItem
          (HTMLTableHeaderRowItem.mk "Step Name" [] ∅))
      ∧ getMultistageHeaderRow.items.head? = some (HTMLItem.headerRowItem
          (HTMLTableHeaderRowItem.mk "Multistage Job Name" [] ∅)) := by
  refine ⟨rfl, rfl, rfl, ?_, rfl, rfl, rfl, rfl, rfl, rfl⟩
  simp only [getMainHeaderRow, NewHTMLTableRowWithItems, HTMLTableRow.items, List.map_cons,
    List.map_nil, HTMLItem.ToHTML, HTMLTableHeaderRowItem.ToHTML, itemsToHTML,
    elementToHTML_text]
  refine congrArg₂ _ ?_ (by decide)
  simp [String.append_assoc]

theorem toTable_params_lookup (k : String) :
    AList.lookup k (GoMap.lit [("class", "table")])
      = if k = "class" then some "table" else none := by
  by_cases hk : k = "class"
  · subst hk
    decide
  · rw [if_neg hk]
    show AList.lookup k ((∅ : GoMap String).insert "class" "table") = none
    rw [AList.lookup_insert_ne hk]
    rfl

end stepmetricshtml

/-! ## Package `stepmetricshtml`: the cells of a row -/

namespace stepmetricshtml

open sippyprocessingv1 generichtml

theorem SpaceHTMLItems_length (htmlItems : List HTMLItem) :
    (SpaceHTMLItems htmlItems).length = 2 * htmlItems.length := by
  induction htmlItems with
  | nil => rfl
  | cons x xs ih =>
    rw [SpaceHTMLItems_cons]
    simp only [List.length_cons, ih]
    ring

/-- The items of the name cell: the name, then one enclosed link for each
generator that is set, in the order of the fields. -/
theorem nameItems_eq (t : tableRow) :
    t.nameItems = NewHTMLTextElement t.name ::
      (t.sippyURL.toList ++ t.ciSearchURL.toList ++ t.stepRegistryURL.toList).map
        getEnclosedHTMLLink := by
  cases t with
  | mk name trend a b c =>
    cases a <;> cases b <;> cases c <;> simp [tableRow.nameItems]

/-- The four cells of a row, in order. -/
theorem toHTMLTableRow_eq (g : TestResult → TestResult → String) (t : tableRow) :
    t.toHTMLTableRow g = HTMLTableRow.mk
      [ HTMLItem.rowItem (HTMLTableRowItem.mk "" (SpaceHTMLItems t.nameItems) ∅),
        HTMLItem.rowItem (HTMLTableRowItem.mk (getArrowForTrend g t.trend) [] ∅),
        HTMLItem.rowItem (HTMLTableRowItem.mk
          (sprintfRuns t.trend.Current.PassPercentage t.trend.Current.Runs) [] ∅),
        HTMLItem.rowItem (HTMLTableRowItem.mk
          (sprintfRuns t.trend.Previous.PassPercentage t.trend.Previous.Runs) [] ∅) ] ∅ := by
  simp [tableRow.toHTMLTableRow, NewHTMLTableRow, HTMLTableRow.AddItems, HTMLTableRow.items,
    HTMLTableRow.params]

/-- The rendering of the name cell: the name and each enclosed link, every one
followed by one space. -/
theorem nameCell_ToHTML (t : tableRow) :
    (HTMLTableRowItem.mk "" (SpaceHTMLItems t.nameItems) ∅).ToHTML
      = "<td>" ++ t.name ++ " "
        ++ concat ((t.sippyURL.toList ++ t.ciSearchURL.toList ++ t.stepRegistryURL.toList).map
            (fun u => "(" ++ u.ToHTML ++ ")" ++ " "))
        ++ "</td>" := by
  have hlen : (SpaceHTMLItems t.nameItems).length ≠ 0 := by
    rw [SpaceHTMLItems_length, nameItems_eq]
    simp
  simp only [HTMLTableRowItem.ToHTML, elementToHTML_eq, attributes_empty, itemsToHTML_eq_map,
    List.length_map, if_pos hlen, concat_SpaceHTMLItems]
  rw [nameItems_eq]
  simp only [List.map_cons, List.map_map, concat, NewHTMLTextElement, HTMLItem.ToHTML,
    Function.comp_def, getEnclosedHTMLLink, String.append_assoc, String.empty_append]
  rfl

/-- Claim C12: the content of the name cell is the name text followed by exactly
one enclosed link `(` + generator HTML + `)` for each generator that is not nil
and none for a nil one, in the fixed order `sippyURL`, `ciSearchURL`,
`stepRegistryURL` (each of these items followed by one space in the rendering);
with all three generators nil the cell holds the name alone. -/
theorem C12_name_cell_links (g : TestResult → TestResult → String) (t : tableRow) :
    (t.toHTMLTableRow g).items.head?
        = some (HTMLItem.rowItem (HTMLTableRowItem.mk "" (SpaceHTMLItems t.nameItems) ∅))
      ∧ t.nameItems = NewHTMLTextElement t.name ::
          (t.sippyURL.toList ++ t.ciSearchURL.toList ++ t.stepRegistryURL.toList).map
            getEnclosedHTMLLink
      ∧ (∀ u : URLGenerator,
          getEnclosedHTMLLink u = NewHTMLTextElement ("(" ++ u.ToHTML ++ ")"))
      ∧ (HTMLTableRowItem.mk "" (SpaceHTMLItems t.nameItems) ∅).ToHTML
        = "<td>" ++ t.name ++ " "
          ++ concat
            ((t.sippyURL.toList ++ t.ciSearchURL.toList ++ t.stepRegistryURL.toList).map
              (fun u => "(" ++ u.ToHTML ++ ")" ++ " "))
          ++ "</td>"
      ∧ (tableRow.mk t.name t.trend none none none).nameItems = [NewHTMLTextElement t.name]
      ∧ (HTMLTableRowItem.mk ""
          (SpaceHTMLItems (tableRow.mk t.name t.trend none none none).nameItems) ∅).ToHTML
        = "<td>" ++ t.name ++ " " ++ "</td>" := by
  refine ⟨?_, nameItems_eq t, fun _ => rfl, nameCell_ToHTML t, rfl, ?_⟩
  · rw [toHTMLTableRow_eq]
    rfl
  · rw [nameCell_ToHTML]
    simp [concat]

end stepmetricshtml

namespace stepmetricshtml

open sippyprocessingv1 generichtml

/-- The rendering of a row from the renderings of its cells. -/
theorem HTMLTableRow_ToHTML_cells (p : GoMap String) (cells : List HTMLItem) :
    (HTMLTableRow.mk cells p).ToHTML
      = "  " ++ "<tr" ++ attributes p ++ ">" ++ "\n" ++ "  "
        ++ concat (cells.map (fun cell => "  " ++ cell.ToHTML ++ "\n" ++ "  "))
        ++ "</tr>" ++ "\n" := by
  have h1 : ∀ x : String, "<" ++ ("tr" ++ x) = "<tr" ++ x := fun x => by
    rw [← String.append_assoc]; rfl
  have h2 : "</" ++ ("tr" ++ ">") = "</tr>" := by decide
  have h3 : "\n  " = "\n" ++ "  " := by decide
  simp only [HTMLTableRow.ToHTML, elementToHTML_eq, rowText, itemsToHTML_eq_map]
  rw [foldl_append_eq (fun h => "  " ++ h ++ "\n  ")]
  simp only [String.append_assoc, String.empty_append, List.length_nil, ne_eq,
    not_true_eq_false, if_false, h1, h2, h3, List.map_map, Function.comp_def]

/-- A data cell holding a text only renders as the text inside `td`. -/
theorem textCell_ToHTML (Text : String) :
    (HTMLItem.rowItem (HTMLTableRowItem.mk Text [] ∅)).ToHTML
      = "<td>" ++ Text ++ "</td>" := by
  have h1 : ∀ x : String, "<" ++ ("td" ++ (">" ++ x)) = "<td>" ++ x := fun x => by
    rw [← String.append_assoc, ← String.append_assoc]; rfl
  have h2 : "</" ++ ("td" ++ ">") = "</td>" := by decide
  simp only [HTMLItem.ToHTML, HTMLTableRowItem.ToHTML, itemsToHTML, elementToHTML_text,
    String.append_assoc, h1, h2]

/-- With the three-way arrow, the arrow of a trend whose trajectory is computed
from its two aggregates is the glyph of the trajectory. -/
theorem getArrowForTrend_of_wellFormed (up down flat : String) (t : stepmetrics.Trend)
    (h : t.wellFormed) :
    getArrowForTrend (GetArrowForTestResult up down flat) t
      = arrowOf up down flat t.Trajectory := by
  obtain ⟨hd, hflat, hup, hdown⟩ := h
  unfold getArrowForTrend GetArrowForTestResult
  show (if t.Current.PassPercentage.toRat > t.Previous.PassPercentage.toRat then up
    else if t.Current.PassPercentage.toRat < t.Previous.PassPercentage.toRat then down
    else flat) = arrowOf up down flat t.Trajectory
  cases htraj : t.Trajectory with
  | Up =>
    have h1 : t.Delta > 0 := hup.mp htraj
    rw [hd] at h1
    rw [if_pos (by linarith)]
    rfl
  | Down =>
    have h1 : t.Delta < 0 := hdown.mp htraj
    rw [hd] at h1
    rw [if_neg (by linarith), if_pos (by linarith)]
    rfl
  | Flat =>
    have h1 : t.Delta = 0 := hflat.mp htraj
    rw [hd] at h1
    rw [if_neg (by linarith), if_neg (by linarith)]
    rfl

/-- Claim C13: with the arrow being the three-way glyph of the direction of the
change, the text of the trend-arrow cell of a row whose trend has its trajectory
computed from its two aggregates is the glyph of that trajectory; so two such
trends with the same trajectory produce the same arrow text, and the arrow is
one of the three glyphs. -/
theorem C13_arrow_follows_trajectory (up down flat : String) (t : tableRow)
    (h : t.trend.wellFormed) :
    (t.toHTMLTableRow (GetArrowForTestResult up down flat)).items[1]?
        = some (HTMLItem.rowItem (HTMLTableRowItem.mk
            (arrowOf up down flat t.trend.Trajectory) [] ∅))
      ∧ getArrowForTrend (GetArrowForTestResult up down flat) t.trend
        = arrowOf up down flat t.trend.Trajectory
      ∧ (∀ t2 : stepmetrics.Trend, t2.wellFormed → t2.Trajectory = t.trend.Trajectory →
          getArrowForTrend (GetArrowForTestResult up down flat) t2
            = getArrowForTrend (GetArrowForTestResult up down flat) t.trend)
      ∧ getArrowForTrend (GetArrowForTestResult up down flat) t.trend ∈ [up, down, flat]
      ∧ (∀ current previous : StageResult,
          getArrowForTrend (GetArrowForTestResult up down flat)
              (stepmetrics.newTrend current previous)
            = arrowOf up down flat (stepmetrics.newTrend current previous).Trajectory) := by
  have key := getArrowForTrend_of_wellFormed up down flat
  refine ⟨?_, key t.trend h, ?_, ?_, fun c p => key _ (stepmetrics.newTrend_wellFormed c p)⟩
  · rw [toHTMLTableRow_eq, key t.trend h]
    rfl
  · intro t2 h2 he
    rw [key t2 h2, key t.trend h, he]
  · rw [key t.trend h]
    cases t.trend.Trajectory <;> simp [arrowOf]

/-- The trend of 90% against 80% is well formed, its trajectory is `Up`, and its
arrow is the glyph for up. -/
theorem C13_arrow_follows_trajectory_witness :
    (stepmetrics.newTrend (aggregate 90 10) (aggregate 80 10)).wellFormed
      ∧ (stepmetrics.newTrend (aggregate 90 10) (aggregate 80 10)).Trajectory
        = stepmetrics.TrendTrajectory.Up
      ∧ getArrowForTrend (GetArrowForTestResult "up" "down" "flat")
          (stepmetrics.newTrend (aggregate 90 10) (aggregate 80 10)) = "up" := by
  have hw := stepmetrics.newTrend_wellFormed (aggregate 90 10) (aggregate 80 10)
  have ht : (stepmetrics.newTrend (aggregate 90 10) (aggregate 80 10)).Trajectory
      = stepmetrics.TrendTrajectory.Up := by
    rw [hw.2.2.1, hw.1]
    show (90 : ℚ) - 80 > 0
    norm_num
  have h := (C13_arrow_follows_trajectory "up" "down" "flat"
    { name := "e2e-aws", trend := stepmetrics.newTrend (aggregate 90 10) (aggregate 80 10)
      sippyURL := none, ciSearchURL := none, stepRegistryURL := none } hw).2.1
  refine ⟨hw, ht, ?_⟩
  rw [h]
  show arrowOf "up" "down" "flat"
    (stepmetrics.newTrend (aggregate 90 10) (aggregate 80 10)).Trajectory = "up"
  rw [ht]
  rfl

/-- Claim C16, refuted as stated: the row of the entity named `<td>` has four
data cells, and its rendering holds the text `<td>` five times. -/
theorem C16_td_count_counterexample :
    ((plainRow "<td>").toHTMLTableRow plainArrow).items.length = 4
      ∧ countText "<td>" ((plainRow "<td>").toHTMLTableRow plainArrow).ToHTML = 5
      ∧ countText "<td>" ((plainRow "a-job").toHTMLTableRow plainArrow).ToHTML = 4 := by
  refine ⟨rfl, by decide!, by decide!⟩

/-- Claim C16, amended: `toHTMLTableRow` produces a row without parameters of
exactly four data cells, in the order name cell, trend-arrow cell,
current-window cell, previous-window cell; its rendering is one `tr` element
holding, in this order, the four cells, each written as a `td` element around
the content of the cell, which is inserted as it is. -/
theorem C16_four_cells (g : TestResult → TestResult → String) (t : tableRow) :
    (t.toHTMLTableRow g).items
        = [ HTMLItem.rowItem (HTMLTableRowItem.mk "" (SpaceHTMLItems t.nameItems) ∅),
            HTMLItem.rowItem (HTMLTableRowItem.mk (getArrowForTrend g t.trend) [] ∅),
            HTMLItem.rowItem (HTMLTableRowItem.mk
              (sprintfRuns t.trend.Current.PassPercentage t.trend.Current.Runs) [] ∅),
            HTMLItem.rowItem (HTMLTableRowItem.mk
              (sprintfRuns t.trend.Previous.PassPercentage t.trend.Previous.Runs) [] ∅) ]
      ∧ (t.toHTMLTableRow g).items.length = 4
      ∧ (t.toHTMLTableRow g).params = ∅
      ∧ (t.toHTMLTableRow g).ToHTML
        = "  <tr>\n  "
          ++ "  <td>" ++ concat (t.nameItems.map (fun item => item.ToHTML ++ " "))
            ++ "</td>\n  "
          ++ "  <td>" ++ getArrowForTrend g t.trend ++ "</td>\n  "
          ++ "  <td>" ++ sprintfRuns t.trend.Current.PassPercentage t.trend.Current.Runs
            ++ "</td>\n  "
          ++ "  <td>" ++ sprintfRuns t.trend.Previous.PassPercentage t.trend.Previous.Runs
            ++ "</td>\n  "
          ++ "</tr>\n" := by
  have hlen : (SpaceHTMLItems t.nameItems).length ≠ 0 := by
    rw [SpaceHTMLItems_length, nameItems_eq]
    simp
  have hname : (HTMLItem.rowItem (HTMLTableRowItem.mk "" (SpaceHTMLItems t.nameItems) ∅)).ToHTML
      = "<td>" ++ concat (t.nameItems.map (fun item => item.ToHTML ++ " ")) ++ "</td>" := by
    simp only [HTMLItem.ToHTML, HTMLTableRowItem.ToHTML, elementToHTML_eq, attributes_empty,
      itemsToHTML_eq_map, List.length_map, if_pos hlen, concat_SpaceHTMLItems]
    simp only [String.append_assoc, String.empty_append]
    rfl
  rw [toHTMLTableRow_eq]
  refine ⟨rfl, rfl, rfl, ?_⟩
  rw [HTMLTableRow_ToHTML_cells, attributes_empty]
  simp only [List.map_cons, List.map_nil, concat, hname, textCell_ToHTML]
  have e1 : "  <tr>\n  " = "  " ++ ("<tr" ++ ("" ++ (">" ++ ("\n" ++ "  ")))) := by decide
  have e2 : "</td>\n  " = "</td>" ++ ("\n" ++ "  ") := by decide
  have e3 : "  <td>" = "  " ++ "<td>" := by decide
  have e4 : "</tr>\n" = "</tr>" ++ "\n" := by decide
  rw [e1, e2, e3, e4]
  simp only [String.append_assoc, String.empty_append, String.append_empty]

end stepmetricshtml

/-! ## Package `stepmetricshtml`: anchor ids -/

theorem String_foldl_append_data (l : List String) (init : String) :
    (l.foldl (fun r s => r ++ s) init).data = init.data ++ (l.map String.data).flatten := by
  induction l generalizing init with
  | nil => simp
  | cons x xs ih => simp [ih, String.data_append]

theorem String_join_data (l : List String) :
    (String.join l).data = (l.map String.data).flatten := by
  unfold String.join
  rw [String_foldl_append_data]
  rfl

namespace strings

/-- Removing a rune with `ReplaceAll(s, old, "")` keeps the other runes, in
order. -/
theorem ReplaceAll_empty_data (s : String) (old : Char) :
    (ReplaceAll s old "").data = s.data.filter (fun r => r ≠ old) := by
  unfold ReplaceAll
  rw [String_join_data, List.map_map]
  induction s.data with
  | nil => rfl
  | cons r rest ih =>
    by_cases h : r = old
    · simp [h, List.filter_cons] at ih ⊢
      exact ih
    · simp [h, List.filter_cons, String.singleton] at ih ⊢
      exact ih

/-- Replacing a rune by a space with `ReplaceAll(s, old, " ")` maps the runes
one by one. -/
theorem ReplaceAll_space_data (s : String) (old : Char) :
    (ReplaceAll s old " ").data
      = s.data.map (fun r => if r = old then Char.ofNat 32 else r) := by
  unfold ReplaceAll
  rw [String_join_data, List.map_map]
  induction s.data with
  | nil => rfl
  | cons r rest ih =>
    by_cases h : r = old
    · simp [h] at ih ⊢
      exact ih
    · simp [h, String.singleton] at ih ⊢
      exact ih

/-- Every rune written by `Title` is a rune of the input or its title case. -/
theorem mem_titleRunes (U : unicode.Tables) (c : Char) (l : List Char) (prev : Char)
    (h : c ∈ titleRunes U prev l) : ∃ r ∈ l, c = r ∨ c = unicode.ToTitle U r := by
  induction l generalizing prev with
  | nil => simp [titleRunes] at h
  | cons r rest ih =>
    simp only [titleRunes, List.mem_cons] at h
    rcases h with h | h
    · refine ⟨r, List.mem_cons_self _ _, ?_⟩
      by_cases hs : isSeparator U prev = true
      · rw [if_pos hs] at h
        exact Or.inr h
      · rw [if_neg hs] at h
        exact Or.inl h
    · obtain ⟨r2, hr2, hc⟩ := ih r h
      exact ⟨r2, List.mem_cons_of_mem _ hr2, hc⟩

end strings

theorem upper_ne_hyphen (n : Nat) (h1 : 97 ≤ n) (h2 : n ≤ 122) :
    Char.ofNat (n - 32) ≠ Char.ofNat 45 := by
  interval_cases n <;> decide

/-- Title case never yields a hyphen from another rune, provided the table for
the runes above `0x7F` never does. -/
theorem ToTitle_ne_hyphen (U : unicode.Tables)
    (hU : ∀ r : Char, 0x7F < r.toNat → U.ToTitle r ≠ Char.ofNat 45)
    (r : Char) (hr : r ≠ Char.ofNat 45) : unicode.ToTitle U r ≠ Char.ofNat 45 := by
  unfold unicode.ToTitle
  by_cases h : r.toNat ≤ 0x7F
  · rw [if_pos h]
    by_cases h2 : 97 ≤ r.toNat ∧ r.toNat ≤ 122
    · rw [if_pos h2]
      exact upper_ne_hyphen _ h2.1 h2.2
    · rw [if_neg h2]
      exact hr
  · rw [if_neg h]
    exact hU r (by omega)

namespace strings

/-- On ASCII runes `Title` does not consult the Unicode tables. -/
theorem titleRunes_ascii (U V : unicode.Tables) (l : List Char) (prev : Char)
    (hp : prev.toNat ≤ 0x7F) (hl : ∀ r ∈ l, r.toNat ≤ 0x7F) :
    titleRunes U prev l = titleRunes V prev l := by
  induction l generalizing prev with
  | nil => rfl
  | cons r rest ih =>
    have hr : r.toNat ≤ 0x7F := hl r (List.mem_cons_self _ _)
    have hrest : ∀ x ∈ rest, x.toNat ≤ 0x7F := fun x hx => hl x (List.mem_cons_of_mem _ hx)
    simp only [titleRunes, isSeparator, unicode.ToTitle, if_pos hp, if_pos hr, ih r hr hrest]

end strings

namespace stepmetricshtml

/-- On an ASCII title the anchor id does not depend on the Unicode tables. -/
theorem getID_ascii (U V : unicode.Tables) (title : String)
    (h : ∀ r ∈ title.data, r.toNat ≤ 0x7F) : getID U title = getID V title := by
  have hd : (strings.Title U (strings.ReplaceAll title (Char.ofNat 45) " ")).data
      = (strings.Title V (strings.ReplaceAll title (Char.ofNat 45) " ")).data := by
    simp only [strings.Title]
    apply strings.titleRunes_ascii U V _ _ (by decide)
    intro r hr
    rw [strings.ReplaceAll_space_data] at hr
    obtain ⟨r0, hr0, rfl⟩ := List.mem_map.mp hr
    by_cases h0 : r0 = Char.ofNat 45
    · rw [if_pos h0]
      decide
    · rw [if_neg h0]
      exact h r0 hr0
  have hT : strings.Title U (strings.ReplaceAll title (Char.ofNat 45) " ")
      = strings.Title V (strings.ReplaceAll title (Char.ofNat 45) " ") :=
    String.ext hd
  unfold getID
  simp only [hT]

/-- The anchor id is the title-cased text, hyphens taken as spaces, without its
spaces and full stops. -/
theorem getID_data (U : unicode.Tables) (title : String) :
    (getID U title).data
      = (strings.Title U (strings.ReplaceAll title (Char.ofNat 45) " ")).data.filter
          (fun r => r ≠ Char.ofNat 32 ∧ r ≠ Char.ofNat 46) := by
  unfold getID
  simp only [strings.ReplaceAll_empty_data, List.filter_filter]
  congr 1
  funext r
  simp [Bool.and_comm]

/-- Claim C14, refuted as stated: the id of the title `a,b` is `A,B`, which
holds a comma; the id of `a_b!` keeps the underscore and the exclamation mark. -/
theorem C14_punctuation_kept_counterexample :
    getID unicode.plain "a,b" = "A,B"
      ∧ Char.ofNat 44 ∈ (getID unicode.plain "a,b").data
      ∧ getID unicode.plain "a_b!" = "A_b!" := by
  decide

/-- Claim C14, amended: the anchor id computed by `getID` is the title with its
hyphens turned into spaces, title-cased by `strings.Title`, and with the spaces
(U+0020) and the full stops removed; so it holds no space and no full stop, and
no hyphen either as long as title case yields none; other punctuation is kept.
The id of `step-metrics by.name` is `StepMetricsByName`. -/
theorem C14_getID_strips (U : unicode.Tables) (title : String) :
    (getID U title).data
        = (strings.Title U (strings.ReplaceAll title (Char.ofNat 45) " ")).data.filter
            (fun r => r ≠ Char.ofNat 32 ∧ r ≠ Char.ofNat 46)
      ∧ Char.ofNat 32 ∉ (getID U title).data
      ∧ Char.ofNat 46 ∉ (getID U title).data
      ∧ ((∀ r : Char, 0x7F < r.toNat → U.ToTitle r ≠ Char.ofNat 45) →
          Char.ofNat 45 ∉ (getID U title).data)
      ∧ getID U "step-metrics by.name" = "StepMetricsByName" := by
  have hex : getID U "step-metrics by.name" = "StepMetricsByName" := by
    rw [getID_ascii U unicode.plain _ (by decide)]
    decide
  refine ⟨getID_data U title, ?_, ?_, ?_, hex⟩
  · rw [getID_data]
    simp
  · rw [getID_data]
    simp
  · intro hU hmem
    rw [getID_data] at hmem
    have h1 := (List.mem_filter.mp hmem).1
    obtain ⟨r, hr, hc⟩ := strings.mem_titleRunes U _ _ _ h1
    rw [strings.ReplaceAll_space_data] at hr
    obtain ⟨r0, _, hr0⟩ := List.mem_map.mp hr
    have hne : r ≠ Char.ofNat 45 := by
      rw [← hr0]
      by_cases h0 : r0 = Char.ofNat 45
      · rw [if_pos h0]
        decide
      · rw [if_neg h0]
        exact h0
    rcases hc with hc | hc
    · exact hne hc.symm
    · exact ToTitle_ne_hyphen U hU r hne hc.symm

/-- With the plain table, under which title case changes no rune above `0x7F`,
the id of `a-b - c` holds no hyphen. -/
theorem C14_getID_strips_witness :
    Char.ofNat 45 ∉ (getID unicode.plain "a-b - c").data
      ∧ getID unicode.plain "a-b - c" = "ABC" :=
  ⟨(C14_getID_strips unicode.plain "a-b - c").2.2.2.1
      (fun r hr h => by
        have h2 : r.toNat = 45 := by
          have h3 : r = Char.ofNat 45 := h
          rw [h3]
          decide
        omega),
    by decide⟩

end stepmetricshtml

/-! ## Package `fmt`: two decimals -/

namespace fmt

theorem twoDigits_eq (k : Nat) (hk : k < 100) :
    twoDigits k = String.mk [Nat.digitChar (k / 10), Nat.digitChar (k % 10)] := by
  interval_cases k <;> rfl

/-- The rounded quotient lies within half a unit of the fraction. -/
theorem roundHalfEven_near (n d : Nat) (hd : 0 < d) :
    2 * (roundHalfEven n d * d) ≤ 2 * n + d ∧ 2 * n ≤ 2 * (roundHalfEven n d * d) + d := by
  have hn : d * (n / d) + n % d = n := Nat.div_add_mod n d
  have hr : n % d < d := Nat.mod_lt n hd
  unfold roundHalfEven
  simp only
  generalize n / d = f at hn ⊢
  generalize n % d = r at hn hr ⊢
  have hfd : f * d = d * f := Nat.mul_comm f d
  have hf1 : (f + 1) * d = d * f + d := by ring
  split_ifs <;> constructor <;> (try rw [hf1]) <;> (try rw [hfd]) <;> omega

theorem float2_eq (x : Float64) :
    float2 x = (if x.signBit then "-" else "")
      ++ hundredths (roundHalfEven (x.toRat.num.natAbs * 100) x.toRat.den) := by
  have hlt : roundHalfEven (x.toRat.num.natAbs * 100) x.toRat.den % 100 < 100 :=
    Nat.mod_lt _ (by decide)
  unfold float2 hundredths
  simp only [twoDigits_eq _ hlt, String.append_assoc]
  have e : roundHalfEven (x.toRat.num.natAbs * 100) x.toRat.den % 100 % 10
      = roundHalfEven (x.toRat.num.natAbs * 100) x.toRat.den % 10 := by omega
  rw [e]

theorem float2_near (q : ℚ) (hq : 0 ≤ q) :
    |((roundHalfEven (q.num.natAbs * 100) q.den : Nat) : ℚ) / 100 - q| ≤ 1 / 200 := by
  obtain ⟨h1, h2⟩ := roundHalfEven_near (q.num.natAbs * 100) q.den q.den_pos
  generalize roundHalfEven (q.num.natAbs * 100) q.den = m at h1 h2 ⊢
  have hden : (0 : ℚ) < (q.den : ℚ) := by exact_mod_cast q.den_pos
  have hnum : ((q.num.natAbs : Nat) : ℚ) = (q.num : ℚ) := by
    have hI : ((q.num.natAbs : Nat) : Int) = q.num :=
      Int.natAbs_of_nonneg (Rat.num_nonneg.mpr hq)
    rw [← Int.cast_natCast, hI]
  have c1 : (2 : ℚ) * ((m : ℚ) * (q.den : ℚ)) ≤ 2 * ((q.num : ℚ) * 100) + (q.den : ℚ) := by
    rw [← hnum]
    exact_mod_cast h1
  have c2 : (2 : ℚ) * ((q.num : ℚ) * 100) ≤ 2 * ((m : ℚ) * (q.den : ℚ)) + (q.den : ℚ) := by
    rw [← hnum]
    exact_mod_cast h2
  have hx : (q.num : ℚ) = q * (q.den : ℚ) := (Rat.mul_den_eq_num q).symm
  rw [hx] at c1 c2
  rw [abs_le]
  constructor
  · by_contra hcon
    push_neg at hcon
    nlinarith
  · by_contra hcon
    push_neg at hcon
    nlinarith

/-- Among the values that are not negative, only the negative zero has its
sign bit set. -/
theorem signBit_iff_negZero (x : Float64) (hx : 0 ≤ x.toRat) :
    x.signBit = true ↔ x = Float64.negZero := by
  cases x with
  | negZero => simp [Float64.signBit]
  | finite value =>
    have hv : ¬ value.num < 0 := not_lt.mpr (Rat.num_nonneg.mpr hx)
    simp [Float64.signBit, hv]

theorem int_of_nonneg (n : Int) (hn : 0 ≤ n) : int n = toString n.toNat := by
  cases n with
  | ofNat k => rfl
  | negSucc k => exact ((Int.negSucc_not_nonneg k).mp hn).elim

end fmt

/-! ## Package `stepmetricshtml`: the statistics cells -/

namespace stepmetricshtml

open sippyprocessingv1 generichtml

theorem sprintfRuns_isStatsText (passPercentage : Float64) (runs : Int)
    (hp : 0 ≤ passPercentage.toRat) (hr : 0 ≤ runs) :
    isStatsText (sprintfRuns passPercentage runs) passPercentage runs :=
  ⟨fmt.roundHalfEven (passPercentage.toRat.num.natAbs * 100) passPercentage.toRat.den,
    fmt.float2_near passPercentage.toRat hp, by
      unfold sprintfRuns
      rw [fmt.float2_eq passPercentage, fmt.int_of_nonneg runs hr]⟩

/-- Claim C11: for a row whose trend has pass percentages in 0..100 and run
counts that are not negative, the text of the third cell is the current pass percentage,
rounded to the nearest hundredth and written with exactly two digits after the
point, followed by `% (`, the current run count as a plain decimal integer and
` runs)`, and the text of the fourth cell is the same for the previous window; a
minus sign comes first exactly when the percentage is the negative zero of
`float64`, written `-0.00`; for zero-valued aggregates the text is
`0.00% (0 runs)`. -/
theorem C11_stats_cells (g : TestResult → TestResult → String) (t : tableRow)
    (hcp : 0 ≤ t.trend.Current.PassPercentage.toRat)
    (_hcq : t.trend.Current.PassPercentage.toRat ≤ 100) (hcr : 0 ≤ t.trend.Current.Runs)
    (hpp : 0 ≤ t.trend.Previous.PassPercentage.toRat)
    (_hpq : t.trend.Previous.PassPercentage.toRat ≤ 100) (hpr : 0 ≤ t.trend.Previous.Runs) :
    (t.toHTMLTableRow g).items[2]?
        = some (HTMLItem.rowItem (HTMLTableRowItem.mk
            (sprintfRuns t.trend.Current.PassPercentage t.trend.Current.Runs) [] ∅))
      ∧ isStatsText (sprintfRuns t.trend.Current.PassPercentage t.trend.Current.Runs)
          t.trend.Current.PassPercentage t.trend.Current.Runs
      ∧ (t.trend.Current.PassPercentage.signBit = true
          ↔ t.trend.Current.PassPercentage = Float64.negZero)
      ∧ (t.toHTMLTableRow g).items[3]?
        = some (HTMLItem.rowItem (HTMLTableRowItem.mk
            (sprintfRuns t.trend.Previous.PassPercentage t.trend.Previous.Runs) [] ∅))
      ∧ isStatsText (sprintfRuns t.trend.Previous.PassPercentage t.trend.Previous.Runs)
          t.trend.Previous.PassPercentage t.trend.Previous.Runs
      ∧ (t.trend.Previous.PassPercentage.signBit = true
          ↔ t.trend.Previous.PassPercentage = Float64.negZero)
      ∧ sprintfRuns (default : StageResult).PassPercentage (default : StageResult).Runs
        = "0.00% (0 runs)"
      ∧ sprintfRuns Float64.negZero 0 = "-0.00% (0 runs)" := by
  refine ⟨?_, sprintfRuns_isStatsText _ _ hcp hcr, fmt.signBit_iff_negZero _ hcp, ?_,
    sprintfRuns_isStatsText _ _ hpp hpr, fmt.signBit_iff_negZero _ hpp, by decide, by decide⟩
  · rw [toHTMLTableRow_eq]
    rfl
  · rw [toHTMLTableRow_eq]
    rfl

/-- The row of `e2e-aws` at 90% over 10 runs against 80% over 8 runs has the
statistics texts `90.00% (10 runs)` and `80.00% (8 runs)`. -/
theorem C11_stats_cells_witness :
    isStatsText (sprintfRuns 90 10) 90 10
      ∧ isStatsText (sprintfRuns 80 8) 80 8
      ∧ sprintfRuns 90 10 = "90.00% (10 runs)"
      ∧ sprintfRuns 80 8 = "80.00% (8 runs)" :=
  have h := C11_stats_cells plainArrow
    { name := "e2e-aws", trend := stepmetrics.newTrend (aggregate 90 10) (aggregate 80 8)
      sippyURL := none, ciSearchURL := none, stepRegistryURL := none }
    (by show (0 : ℚ) ≤ 90; norm_num) (by show (90 : ℚ) ≤ 100; norm_num)
    (by show (0 : Int) ≤ 10; decide)
    (by show (0 : ℚ) ≤ 80; norm_num) (by show (80 : ℚ) ≤ 100; norm_num)
    (by show (0 : Int) ≤ 8; decide)
  ⟨h.2.1, h.2.2.2.2.1, by decide, by decide⟩

end stepmetricshtml

/-! ## Rows built step by step -/

namespace generichtml

theorem AddItems_fields (r : HTMLTableRow) (items : List HTMLItem) :
    (r.AddItems items).items = r.items ++ items ∧ (r.AddItems items).params = r.params :=
  ⟨rfl, rfl⟩

theorem AddItems_twice (p : GoMap String) (a b : List HTMLItem) :
    ((NewHTMLTableRow p).AddItems a).AddItems b = NewHTMLTableRowWithItems p (a ++ b) := by
  simp [NewHTMLTableRow, NewHTMLTableRowWithItems, HTMLTableRow.AddItems, HTMLTableRow.items,
    HTMLTableRow.params]

/-- Claim C21: the row obtained from `NewHTMLTableRow(p)` by `AddItems(a)` and
then `AddItems(b)` is the row `NewHTMLTableRowWithItems(p, a ++ b)` and renders
to the same string; `AddItems` appends the new cells after the cells already
there, in order, and leaves the parameters of the row unchanged. -/
theorem C21_add_items_appends (p : GoMap String) (a b : List HTMLItem) :
    (((NewHTMLTableRow p).AddItems a).AddItems b).ToHTML
        = (NewHTMLTableRowWithItems p (a ++ b)).ToHTML
      ∧ ((NewHTMLTableRow p).AddItems a).AddItems b = NewHTMLTableRowWithItems p (a ++ b)
      ∧ (((NewHTMLTableRow p).AddItems a).AddItems b).items = a ++ b
      ∧ (((NewHTMLTableRow p).AddItems a).AddItems b).params = p
      ∧ (∀ (r : HTMLTableRow) (items : List HTMLItem),
          (r.AddItems items).items = r.items ++ items
            ∧ (r.AddItems items).params = r.params)
      ∧ (((NewHTMLTableRow p).AddItems a).AddItems b).ToHTML
        = "  " ++ "<tr" ++ attributes p ++ ">" ++ "\n" ++ "  "
          ++ concat ((a ++ b).map (fun cell => "  " ++ cell.ToHTML ++ "\n" ++ "  "))
          ++ "</tr>" ++ "\n" := by
  refine ⟨by rw [AddItems_twice], AddItems_twice p a b, ?_, ?_, AddItems_fields, ?_⟩
  · rw [AddItems_twice]
    rfl
  · rw [AddItems_twice]
    rfl
  · rw [AddItems_twice]
    exact stepmetricshtml.HTMLTableRow_ToHTML_cells p (a ++ b)

end generichtml

/-! ## Package `stepmetricshtml`: anchor ids are fixed points -/

theorem upper_toNat (n : Nat) (h1 : 97 ≤ n) (h2 : n ≤ 122) :
    (Char.ofNat (n - 32)).toNat = n - 32 := by
  interval_cases n <;> decide

/-- Title case applied twice is title case applied once. -/
theorem ToTitle_ToTitle (U : unicode.Tables) (hU : U.lawful) (r : Char) :
    unicode.ToTitle U (unicode.ToTitle U r) = unicode.ToTitle U r := by
  by_cases h : r.toNat ≤ 0x7F
  · by_cases h2 : 97 ≤ r.toNat ∧ r.toNat ≤ 122
    · have e : unicode.ToTitle U r = Char.ofNat (r.toNat - 32) := by
        simp only [unicode.ToTitle, if_pos h, if_pos h2]
      have hn := upper_toNat r.toNat h2.1 h2.2
      rw [e]
      have h3 : (Char.ofNat (r.toNat - 32)).toNat ≤ 0x7F := by omega
      have h4 : ¬ (97 ≤ (Char.ofNat (r.toNat - 32)).toNat
          ∧ (Char.ofNat (r.toNat - 32)).toNat ≤ 122) := by omega
      simp only [unicode.ToTitle, if_pos h3, if_neg h4]
    · have e : unicode.ToTitle U r = r := by
        simp only [unicode.ToTitle, if_pos h, if_neg h2]
      rw [e, e]
  · have e : unicode.ToTitle U r = U.ToTitle r := by
      simp only [unicode.ToTitle, if_neg h]
    rw [e]
    exact (hU r (by omega)).1

/-- Title case keeps the separator status of a rune. -/
theorem isSeparator_ToTitle (U : unicode.Tables) (hU : U.lawful) (r : Char) :
    strings.isSeparator U (unicode.ToTitle U r) = strings.isSeparator U r := by
  by_cases h : r.toNat ≤ 0x7F
  · by_cases h2 : 97 ≤ r.toNat ∧ r.toNat ≤ 122
    · have e : unicode.ToTitle U r = Char.ofNat (r.toNat - 32) := by
        simp only [unicode.ToTitle, if_pos h, if_pos h2]
      have hn := upper_toNat r.toNat h2.1 h2.2
      rw [e]
      have h3 : (Char.ofNat (r.toNat - 32)).toNat ≤ 0x7F := by omega
      have h4 : ¬ (48 ≤ (Char.ofNat (r.toNat - 32)).toNat
          ∧ (Char.ofNat (r.toNat - 32)).toNat ≤ 57) := by omega
      have h5 : ¬ (97 ≤ (Char.ofNat (r.toNat - 32)).toNat
          ∧ (Char.ofNat (r.toNat - 32)).toNat ≤ 122) := by omega
      have h6 : 65 ≤ (Char.ofNat (r.toNat - 32)).toNat
          ∧ (Char.ofNat (r.toNat - 32)).toNat ≤ 90 := by omega
      have h7 : ¬ (48 ≤ r.toNat ∧ r.toNat ≤ 57) := by omega
      simp only [strings.isSeparator, if_pos h3, if_neg h4, if_neg h5, if_pos h6, if_pos h,
        if_neg h7, if_pos h2]
    · have e : unicode.ToTitle U r = r := by
        simp only [unicode.ToTitle, if_pos h, if_neg h2]
      rw [e]
  · have e : unicode.ToTitle U r = U.ToTitle r := by
      simp only [unicode.ToTitle, if_neg h]
    rw [e]
    exact (hU r (by omega)).2.1

/-- A space and a full stop are separators. -/
theorem isSeparator_of_removed (U : unicode.Tables) (c : Char)
    (hc : ¬ (c ≠ Char.ofNat 32 ∧ c ≠ Char.ofNat 46)) : strings.isSeparator U c = true := by
  have h : c = Char.ofNat 32 ∨ c = Char.ofNat 46 := by
    by_cases h1 : c = Char.ofNat 32
    · exact Or.inl h1
    · by_cases h2 : c = Char.ofNat 46
      · exact Or.inr h2
      · exact absurd ⟨h1, h2⟩ hc
  rcases h with h | h <;> subst h <;> rfl

namespace strings

/-- The title-cased text without its spaces and full stops is left unchanged by
`Title`, whatever rune came before, as long as that rune is a separator only if
the rune before in the original text was one. -/
theorem titleRunes_filter_fixed (U : unicode.Tables) (hU : U.lawful) (l : List Char)
    (prev prev2 : Char) (h : isSeparator U prev2 = true → isSeparator U prev = true) :
    titleRunes U prev2
        ((titleRunes U prev l).filter (fun r => r ≠ Char.ofNat 32 ∧ r ≠ Char.ofNat 46))
      = (titleRunes U prev l).filter (fun r => r ≠ Char.ofNat 32 ∧ r ≠ Char.ofNat 46) := by
  induction l generalizing prev prev2 with
  | nil => rfl
  | cons r rest ih =>
    simp only [titleRunes]
    by_cases hk : (if isSeparator U prev = true then unicode.ToTitle U r else r) ≠ Char.ofNat 32
        ∧ (if isSeparator U prev = true then unicode.ToTitle U r else r) ≠ Char.ofNat 46
    · rw [List.filter_cons_of_pos (by simpa using hk)]
      simp only [titleRunes]
      have hrest := ih r (if isSeparator U prev = true then unicode.ToTitle U r else r)
        (fun hs => by
          by_cases hp : isSeparator U prev = true
          · rw [if_pos hp, isSeparator_ToTitle U hU] at hs
            exact hs
          · rw [if_neg hp] at hs
            exact hs)
      rw [hrest]
      congr 1
      by_cases hp2 : isSeparator U prev2 = true
      · rw [if_pos hp2, if_pos (h hp2), ToTitle_ToTitle U hU]
      · rw [if_neg hp2]
    · rw [List.filter_cons_of_neg (by simpa using hk)]
      apply ih r prev2
      intro _
      have hsep := isSeparator_of_removed U _ hk
      by_cases hp : isSeparator U prev = true
      · rw [if_pos hp, isSeparator_ToTitle U hU] at hsep
        exact hsep
      · rw [if_neg hp] at hsep
        exact hsep

end strings

namespace stepmetricshtml

/-- An anchor id holds no hyphen, title case yielding none. -/
theorem getID_no_hyphen (U : unicode.Tables) (hU : U.lawful) (title : String) :
    Char.ofNat 45 ∉ (getID U title).data := by
  intro hmem
  rw [getID_data] at hmem
  have h1 := (List.mem_filter.mp hmem).1
  obtain ⟨r, hr, hc⟩ := strings.mem_titleRunes U _ _ _ h1
  rw [strings.ReplaceAll_space_data] at hr
  obtain ⟨r0, _, hr0⟩ := List.mem_map.mp hr
  have hne : r ≠ Char.ofNat 45 := by
    rw [← hr0]
    by_cases h0 : r0 = Char.ofNat 45
    · rw [if_pos h0]
      decide
    · rw [if_neg h0]
      exact h0
  rcases hc with hc | hc
  · exact hne hc.symm
  · exact ToTitle_ne_hyphen U (fun x hx => (hU x hx).2.2) r hne hc.symm

/-- Turning hyphens into spaces leaves a text without hyphens as it is. -/
theorem ReplaceAll_hyphen_noop (s : String) (h : Char.ofNat 45 ∉ s.data) :
    strings.ReplaceAll s (Char.ofNat 45) " " = s := by
  apply String.ext
  rw [strings.ReplaceAll_space_data]
  have hmap : ∀ l : List Char, Char.ofNat 45 ∉ l →
      l.map (fun r => if r = Char.ofNat 45 then Char.ofNat 32 else r) = l := by
    intro l hl
    induction l with
    | nil => rfl
    | cons x xs ih =>
      have hx : x ≠ Char.ofNat 45 := fun e => hl (e ▸ List.mem_cons_self _ _)
      have hxs : Char.ofNat 45 ∉ xs := fun e => hl (List.mem_cons_of_mem _ e)
      simp only [List.map_cons, if_neg hx, ih hxs]
  exact hmap s.data h

/-- The plain table has the properties the anchor ids rely on. -/
theorem plain_lawful : unicode.plain.lawful := by
  intro r hr
  have h : ¬ r.toNat ≤ 0x7F := by omega
  refine ⟨?_, rfl, ?_⟩
  · simp only [unicode.ToTitle, unicode.plain, if_neg h]
  · intro e
    have h2 : r.toNat = 45 := by
      have h3 : r = Char.ofNat 45 := e
      rw [h3]
      decide
    omega

/-- Claim C22: `getID` is idempotent: the id derived from an id is that id, for
every string, given that on the runes above `0x7F` title case is idempotent,
keeps the separator status of a rune and yields no hyphen. -/
theorem C22_getID_idempotent (U : unicode.Tables) (hU : U.lawful) (s : String) :
    getID U (getID U s) = getID U s := by
  apply String.ext
  have hfix : (strings.Title U (getID U s)).data = (getID U s).data := by
    simp only [strings.Title]
    rw [getID_data]
    exact strings.titleRunes_filter_fixed U hU _ _ _ (fun hs => hs)
  rw [getID_data U (getID U s), ReplaceAll_hyphen_noop _ (getID_no_hyphen U hU s), hfix,
    getID_data]
  simp only [List.filter_filter, Bool.and_self]

/-- With the plain table the id of `step-metrics by.name` is a fixed point of
`getID`. -/
theorem C22_getID_idempotent_witness :
    getID unicode.plain (getID unicode.plain "step-metrics by.name")
        = getID unicode.plain "step-metrics by.name"
      ∧ getID unicode.plain "StepMetricsByName" = "StepMetricsByName" :=
  ⟨C22_getID_idempotent unicode.plain plain_lawful "step-metrics by.name", by decide⟩

end stepmetricshtml

/-! ## Package `stepmetricshtml`: the synthetic title row and the table -/

namespace stepmetricshtml

open sippyprocessingv1 generichtml

theorem attributes_class_id_href (v1 v2 v3 : String) :
    attributes (GoMap.lit [("class", v1), ("id", v2), ("href", v3)])
      = " class=\"" ++ v1 ++ "\" href=\"" ++ v3 ++ "\" id=\"" ++ v2 ++ "\"" := by
  have hk : sets.List (sets.StringKeySet (GoMap.lit [("class", v1), ("id", v2), ("href", v3)]))
      = ["class", "href", "id"] := rfl
  have i1 : (GoMap.lit [("class", v1), ("id", v2), ("href", v3)]).index "class" = v1 := rfl
  have i2 : (GoMap.lit [("class", v1), ("id", v2), ("href", v3)]).index "href" = v3 := rfl
  have i3 : (GoMap.lit [("class", v1), ("id", v2), ("href", v3)]).index "id" = v2 := rfl
  unfold attributes
  rw [hk]
  simp only [List.map_cons, List.map_nil, concat, attrText, i1, i2, i3]
  apply String.ext
  simp only [String.data_append, List.append_assoc, List.cons_append, List.nil_append]

theorem attributes_class_title (v1 v2 : String) :
    attributes (GoMap.lit [("class", v1), ("title", v2)])
      = " class=\"" ++ v1 ++ "\" title=\"" ++ v2 ++ "\"" := by
  have hk : sets.List (sets.StringKeySet (GoMap.lit [("class", v1), ("title", v2)]))
      = ["class", "title"] := rfl
  have i1 : (GoMap.lit [("class", v1), ("title", v2)]).index "class" = v1 := rfl
  have i2 : (GoMap.lit [("class", v1), ("title", v2)]).index "title" = v2 := rfl
  unfold attributes
  rw [hk]
  simp only [List.map_cons, List.map_nil, concat, attrText, i1, i2]
  apply String.ext
  simp only [String.data_append, List.append_assoc, List.cons_append, List.nil_append]

theorem attributes_colspan_class (v1 v2 : String) :
    attributes (GoMap.lit [("colspan", v1), ("class", v2)])
      = " class=\"" ++ v2 ++ "\" colspan=\"" ++ v1 ++ "\"" := by
  have hk : sets.List (sets.StringKeySet (GoMap.lit [("colspan", v1), ("class", v2)]))
      = ["class", "colspan"] := rfl
  have i1 : (GoMap.lit [("colspan", v1), ("class", v2)]).index "class" = v2 := rfl
  have i2 : (GoMap.lit [("colspan", v1), ("class", v2)]).index "colspan" = v1 := rfl
  unfold attributes
  rw [hk]
  simp only [List.map_cons, List.map_nil, concat, attrText, i1, i2]
  apply String.ext
  simp only [String.data_append, List.append_assoc, List.cons_append, List.nil_append]

/-- The rendering of the synthetic title row: one header cell spanning
`t.width` columns that holds the link to the anchor of the description, the
info glyph titled `t.title` and a space. -/
theorem defaultHeaderRow_ToHTML (U : unicode.Tables) (t : tableOpts) :
    (t.defaultHeaderRow U).ToHTML
      = "  <tr>\n  "
        ++ "  <th class=\"text-center\" colspan=\"" ++ t.width ++ "\">"
        ++ "<a class=\"text-dark\" href=\"#" ++ getID U t.description
          ++ "\" id=\"" ++ getID U t.description ++ "\">" ++ t.description ++ "</a>"
        ++ "<i class=\"fa fa-info-circle\" title=\"" ++ t.title ++ "\"></i>"
        ++ " "
        ++ "</th>\n  "
        ++ "</tr>\n" := by
  have hrow : t.defaultHeaderRow U = HTMLTableRow.mk
      [ HTMLItem.headerRowItem (HTMLTableHeaderRowItem.mk ""
          [ HTMLItem.element (HTMLElement.mk
              (GoMap.lit [("class", "text-dark"), ("id", getID U t.description),
                ("href", "#" ++ getID U t.description)])
              t.description [] "a"),
            HTMLItem.element (HTMLElement.mk
              (GoMap.lit [("class", "fa fa-info-circle"), ("title", t.title)])
              "" [] "i"),
            NewHTMLTextElement " " ]
          (GoMap.lit [("colspan", t.width), ("class", "text-center")])) ] ∅ := rfl
  rw [hrow, HTMLTableRow_ToHTML_cells, attributes_empty]
  simp only [List.map_cons, List.map_nil, concat, HTMLItem.ToHTML,
    HTMLTableHeaderRowItem.ToHTML, HTMLElement.ToHTML, itemsToHTML, NewHTMLTextElement,
    elementToHTML_eq, attributes_class_id_href, attributes_class_title,
    attributes_colspan_class, List.length_cons, List.length_nil]
  simp only [ne_eq, Nat.add_one_ne_zero, not_false_eq_true, if_true, not_true_eq_false,
    if_false, concat]
  apply String.ext
  simp only [String.data_append, List.append_assoc, List.cons_append, List.nil_append]

/-- Claim C17: `toTable` yields a table whose only attribute is
`class="table"`, whose header rows are the synthetic title row followed by the
header rows of the caller in their order, `1 + len(t.headerRows)` in all, and
whose body rows are the rows of the elements of `t.rows`, one each, in the order
of `t.rows`. The synthetic title row has no attribute and one header cell with
the attributes `class="text-center"` and `colspan` = `t.width`; the cell holds a
link `a` with the text `t.description`, the class `text-dark`, the id
`getID(t.description)` and the target `#` + that id, then an element `i` with
the class `fa fa-info-circle` and the title `t.title`, then a space. -/
theorem C17_table_rows (U : unicode.Tables)
    (GetArrowForTestResult : TestResult → TestResult → String) (t : tableOpts) :
    (∀ k, AList.lookup k (t.toTable U GetArrowForTestResult).params
        = if k = "class" then some "table" else none)
      ∧ attributes (t.toTable U GetArrowForTestResult).params = " class=\"table\""
      ∧ (t.toTable U GetArrowForTestResult).headerRows
        = t.defaultHeaderRow U :: t.headerRows
      ∧ (t.toTable U GetArrowForTestResult).headerRows.length = 1 + t.headerRows.length
      ∧ (t.toTable U GetArrowForTestResult).rows
        = t.rows.map (fun row => row.toHTMLTableRow GetArrowForTestResult)
      ∧ (t.toTable U GetArrowForTestResult).rows.length = t.rows.length
      ∧ (t.toTable U GetArrowForTestResult).headerRows.head?
        = some (HTMLTableRow.mk
            [ HTMLItem.headerRowItem (HTMLTableHeaderRowItem.mk ""
                [ HTMLItem.element (HTMLElement.mk
                    (GoMap.lit [("class", "text-dark"), ("id", getID U t.description),
                      ("href", "#" ++ getID U t.description)])
                    t.description [] "a"),
                  HTMLItem.element (HTMLElement.mk
                    (GoMap.lit [("class", "fa fa-info-circle"), ("title", t.title)])
                    "" [] "i"),
                  NewHTMLTextElement " " ]
                (GoMap.lit [("colspan", t.width), ("class", "text-center")])) ] ∅)
      ∧ (t.defaultHeaderRow U).ToHTML
        = "  <tr>\n  "
          ++ "  <th class=\"text-center\" colspan=\"" ++ t.width ++ "\">"
          ++ "<a class=\"text-dark\" href=\"#" ++ getID U t.description
            ++ "\" id=\"" ++ getID U t.description ++ "\">" ++ t.description ++ "</a>"
          ++ "<i class=\"fa fa-info-circle\" title=\"" ++ t.title ++ "\"></i>"
          ++ " "
          ++ "</th>\n  "
          ++ "</tr>\n"
      ∧ (t.toTable U GetArrowForTestResult).ToHTML
        = "<table class=\"table\">" ++ "\n"
          ++ concat ((t.defaultHeaderRow U :: t.headerRows).map HTMLTableRow.ToHTML)
          ++ concat (t.rows.map
              (fun row => (row.toHTMLTableRow GetArrowForTestResult).ToHTML))
          ++ "</table>" := by
  have ha : attributes (GoMap.lit [("class", "table")]) = " class=\"table\"" := by decide
  refine ⟨?_, ?_, ?_, ?_, ?_, ?_, ?_, defaultHeaderRow_ToHTML U t, ?_⟩
  · rw [toTable_eq]
    exact toTable_params_lookup
  · rw [toTable_eq]
    exact ha
  · rw [toTable_eq]
    rfl
  · rw [toTable_eq]
    simp [HTMLTable.headerRows, Nat.add_comm]
  · rw [toTable_eq]
    rfl
  · rw [toTable_eq]
    simp [HTMLTable.rows]
  · rw [toTable_eq]
    rfl
  · rw [toTable_eq, HTMLTable_ToHTML_eq]
    simp only [HTMLTable.params, HTMLTable.headerRows, HTMLTable.rows, ha, List.map_map,
      Function.comp_def]
    apply String.ext
    simp only [String.data_append, List.append_assoc, List.cons_append, List.nil_append]

end stepmetricshtml
